import Mathlib

/-!
Verification of the WebSocket bridge core of `claude-code-api`
(`src/claude-code-api/src/ws/`): the NDJSON frame codec (`ndjson.rs`),
the session data model (`types.rs`), the message router (`bridge.rs`)
and the attach/detach endpoint flows (`cli_handler.rs`,
`client_handler.rs`), shallowly embedded as pure Lean functions.
-/

namespace Ws

/-- Model of `serde_json::Value`. Objects are association lists in insertion
order; `serde_json`'s map cannot hold duplicate keys (insertion replaces), so
well-formed values (`Json.wf`) have pairwise-distinct keys. Numbers are
modelled by arbitrary-precision integers, covering the `PosInt`/`NegInt` arms
of `serde_json::Number`; the `Float` arm is IEEE 754 floating point and is
outside this embedding. -/
inductive Json where
  | null
  | bool (b : Bool)
  | num (n : Int)
  | str (s : String)
  | arr (elems : List Json)
  | obj (entries : List (String × Json))
deriving Repr

mutual

/-- Boolean equality on `Json` (structural). -/
def Json.beq : Json → Json → Bool
  | .null, .null => true
  | .bool a, .bool b => a == b
  | .num a, .num b => a == b
  | .str a, .str b => a == b
  | .arr a, .arr b => Json.beqL a b
  | .obj a, .obj b => Json.beqE a b
  | _, _ => false

/-- Boolean equality on lists of `Json`. -/
def Json.beqL : List Json → List Json → Bool
  | [], [] => true
  | a :: as, b :: bs => Json.beq a b && Json.beqL as bs
  | _, _ => false

/-- Boolean equality on object entry lists. -/
def Json.beqE : List (String × Json) → List (String × Json) → Bool
  | a :: as, b :: bs => a.1 == b.1 && Json.beq a.2 b.2 && Json.beqE as bs
  | [], [] => true
  | _, _ => false

end

theorem Json.sizeOf_lt_of_mem_elems {x : Json} {xs : List Json} (h : x ∈ xs) :
    sizeOf x < sizeOf (Json.arr xs) := by
  have h1 := List.sizeOf_lt_of_mem h
  have h2 : sizeOf (Json.arr xs) = 1 + sizeOf xs := by simp
  omega

theorem Json.sizeOf_lt_of_mem_entries {e : String × Json} {es : List (String × Json)}
    (h : e ∈ es) : sizeOf e.2 < sizeOf (Json.obj es) := by
  have h1 := List.sizeOf_lt_of_mem h
  have h2 : sizeOf (Json.obj es) = 1 + sizeOf es := by simp
  have h3 : sizeOf e.2 < sizeOf e := by
    obtain ⟨k, v⟩ := e
    simp
  omega

theorem Json.beqL_iff (as bs : List Json)
    (ih : ∀ a ∈ as, ∀ b, Json.beq a b = true ↔ a = b) :
    Json.beqL as bs = true ↔ as = bs := by
  induction as generalizing bs with
  | nil => cases bs <;> simp [Json.beqL]
  | cons a as ihl =>
    cases bs with
    | nil => simp [Json.beqL]
    | cons b bs =>
      rw [Json.beqL, Bool.and_eq_true, ih a (by simp),
        ihl bs (fun x hx => ih x (List.mem_cons_of_mem _ hx))]
      all_goals simp

theorem Json.beqE_iff (as bs : List (String × Json))
    (ih : ∀ e ∈ as, ∀ b, Json.beq e.2 b = true ↔ e.2 = b) :
    Json.beqE as bs = true ↔ as = bs := by
  induction as generalizing bs with
  | nil => cases bs <;> simp [Json.beqE]
  | cons a as ihl =>
    obtain ⟨k1, v1⟩ := a
    cases bs with
    | nil => simp [Json.beqE]
    | cons b bs =>
      obtain ⟨k2, v2⟩ := b
      rw [Json.beqE, Bool.and_eq_true, Bool.and_eq_true,
        ih (k1, v1) (by simp),
        ihl bs (fun x hx => ih x (List.mem_cons_of_mem _ hx))]
      simp [beq_iff_eq]

theorem Json.beq_iff_aux : ∀ (n : Nat) (a b : Json), sizeOf a ≤ n →
    (Json.beq a b = true ↔ a = b) := by
  intro n
  induction n with
  | zero =>
    intro a _ ha
    exact absurd ha (by cases a <;> simp)
  | succ n ih =>
    intro a b ha
    cases a with
    | null => cases b <;> simp [Json.beq]
    | bool x => cases b <;> simp [Json.beq]
    | num x => cases b <;> simp [Json.beq]
    | str x => cases b <;> simp [Json.beq]
    | arr xs =>
      cases b <;> simp only [Json.beq, Bool.false_eq_true, false_iff] <;>
        try exact fun h => Json.noConfusion h
      case arr ys =>
        rw [Json.beqL_iff xs ys (fun x hx b => by
          have hlt := Json.sizeOf_lt_of_mem_elems hx
          exact ih x b (by omega))]
        all_goals simp
    | obj es =>
      cases b <;> simp only [Json.beq, Bool.false_eq_true, false_iff] <;>
        try exact fun h => Json.noConfusion h
      case obj fs =>
        rw [Json.beqE_iff es fs (fun e he b => by
          have hlt := Json.sizeOf_lt_of_mem_entries he
          exact ih e.2 b (by omega))]
        all_goals simp

theorem Json.beq_iff (a b : Json) : Json.beq a b = true ↔ a = b :=
  Json.beq_iff_aux (sizeOf a) a b le_rfl

instance : DecidableEq Json := fun a b => decidable_of_iff _ (Json.beq_iff a b)

/-- Model of `Value::get(key)` (`serde_json`): object member lookup, `None` on
any non-object value. -/
def Json.get : Json → String → Option Json
  | .obj entries, k => lookupEntry entries k
  | _, _ => none
where
  lookupEntry : List (String × Json) → String → Option Json
    | [], _ => none
    | (k', v) :: rest, k => if k' = k then some v else lookupEntry rest k

/-- Model of `Value::as_str`. -/
def Json.asStr : Json → Option String
  | .str s => some s
  | _ => none

/-- Model of `Value::as_array`. -/
def Json.asArr : Json → Option (List Json)
  | .arr xs => some xs
  | _ => none

/-- Model of `Value::as_f64`, which succeeds on every `serde_json` number.
The numeric value is kept exact (integers in this embedding). -/
def Json.asNum : Json → Option Int
  | .num n => some n
  | _ => none

/-- Model of `Value::as_u64`: succeeds exactly on numbers representable as
`u64` (non-negative, below `2^64`). -/
def Json.asU64 : Json → Option Nat
  | .num n => if 0 ≤ n ∧ n < 2 ^ 64 then some n.toNat else none
  | _ => none

/-- The `type` discriminant of a frame: `json.get("type").and_then(as_str)`. -/
def frame_type (j : Json) : Option String :=
  (j.get "type").bind Json.asStr

/- ### Frame codec (`ndjson.rs` plus the `serde_json` string codec it calls) -/

/-- Decimal digit character for `d < 10`. -/
def digitChar (d : Nat) : Char :=
  if d = 0 then '0' else if d = 1 then '1' else if d = 2 then '2'
  else if d = 3 then '3' else if d = 4 then '4' else if d = 5 then '5'
  else if d = 6 then '6' else if d = 7 then '7' else if d = 8 then '8'
  else if d = 9 then '9' else '*'

/-- Numeric value of a decimal digit character. -/
def charDigit (c : Char) : Nat := c.toNat - 48

/-- Lowercase hexadecimal digit character for `d < 16` (as in `serde_json`'s
escape table). -/
def hexDigitChar (d : Nat) : Char :=
  if d < 10 then digitChar d
  else if d = 10 then 'a' else if d = 11 then 'b' else if d = 12 then 'c'
  else if d = 13 then 'd' else if d = 14 then 'e' else if d = 15 then 'f'
  else '*'

/-- Hexadecimal value of a character, accepting both cases (RFC 8259 string
escapes as read by `serde_json`). -/
def hexVal (c : Char) : Option Nat :=
  if c.isDigit then some (c.toNat - 48)
  else if 'a' ≤ c ∧ c ≤ 'f' then some (c.toNat - 97 + 10)
  else if 'A' ≤ c ∧ c ≤ 'F' then some (c.toNat - 65 + 10)
  else none

/-- Decimal chars of a natural number, most significant first (`itoa`, as used
by `serde_json`'s compact serializer). -/
def natToChars (n : Nat) : List Char :=
  if n = 0 then ['0'] else ((Nat.digits 10 n).map digitChar).reverse

/-- Decimal chars of an integer. -/
def intToChars (i : Int) : List Char :=
  if i < 0 then '-' :: natToChars i.natAbs else natToChars i.toNat

/-- Natural number denoted by a list of decimal digit characters (most
significant first). -/
def charsToNat (cs : List Char) : Nat :=
  cs.foldl (fun a c => a * 10 + charDigit c) 0

/-- One character of a JSON string as escaped by `serde_json`'s compact
serializer: `"` and `\` get two-character escapes, the five control characters
with short forms use them, the remaining control characters use `\u00xx`, and
everything else is emitted verbatim. -/
def escapeChar (c : Char) : List Char :=
  if c = '"' then ['\\', '"']
  else if c = '\\' then ['\\', '\\']
  else if c = '\x08' then ['\\', 'b']
  else if c = '\t' then ['\\', 't']
  else if c = '\n' then ['\\', 'n']
  else if c = '\x0c' then ['\\', 'f']
  else if c = '\r' then ['\\', 'r']
  else if c.toNat < 32 then
    let hi := hexDigitChar (c.toNat / 16)
    let lo := hexDigitChar (c.toNat % 16)
    '\\' :: 'u' :: '0' :: '0' :: hi :: [lo]
  else [c]

/-- Escaped body of a JSON string literal. -/
def escapeChars (cs : List Char) : List Char := cs.flatMap escapeChar

/-- Quoted JSON string literal. -/
def printStr (s : String) : List Char := '"' :: escapeChars s.data ++ ['"']

mutual

/-- Compact serialization of a JSON value: model of `serde_json::to_string`
on `Value` (which cannot fail). Object members are emitted in the map's
iteration order, which for the association-list model is entry order. -/
def printJson : Json → List Char
  | .null => "null".data
  | .bool true => "true".data
  | .bool false => "false".data
  | .num i => intToChars i
  | .str s => printStr s
  | .arr [] => ['[', ']']
  | .arr (x :: xs) => '[' :: (printJson x ++ printElems xs) ++ [']']
  | .obj [] => ['{', '}']
  | .obj (e :: es) => '{' :: (printEntry e ++ printMembers es) ++ ['}']

/-- Remaining array elements, each preceded by a comma. -/
def printElems : List Json → List Char
  | [] => []
  | x :: xs => ',' :: printJson x ++ printElems xs

/-- One object member: quoted key, colon, value. -/
def printEntry : String × Json → List Char
  | (k, v) => printStr k ++ ':' :: printJson v

/-- Remaining object members, each preceded by a comma. -/
def printMembers : List (String × Json) → List Char
  | [] => []
  | e :: es => ',' :: printEntry e ++ printMembers es

end

/-- Model of `to_ndjson` (`ndjson.rs:28-32`): compact JSON serialization of
the value followed by a newline. Serialization of a `Value` cannot fail, so
the `unwrap_or_else` fallback is dead code. -/
def to_ndjson (v : Json) : String := String.mk (printJson v ++ ['\n'])

/-- JSON insignificant whitespace (RFC 8259, as skipped by `serde_json`):
space (32), tab (9), line feed (10), carriage return (13). -/
def isJsonWs (c : Char) : Bool :=
  c.toNat = 32 || c.toNat = 9 || c.toNat = 10 || c.toNat = 13

/-- Whitespace removed by Rust's `str::trim` (`char::is_whitespace`), modelled
on its ASCII part: the four JSON whitespace characters plus vertical tab (11)
and form feed (12). (The Unicode space characters of `char::is_whitespace`
are not modelled; no theorem below depends on them.) -/
def isTrimWs (c : Char) : Bool :=
  c.toNat = 32 || c.toNat = 9 || c.toNat = 10 || c.toNat = 13 ||
    c.toNat = 11 || c.toNat = 12

/-- Model of `str::trim`. -/
def trimChars (cs : List Char) : List Char :=
  ((cs.dropWhile isTrimWs).reverse.dropWhile isTrimWs).reverse

/-- Model of `str::split('\n')`: the fragments between newline separators;
always at least one fragment. -/
def splitNl : List Char → List (List Char)
  | [] => [[]]
  | c :: cs =>
    if c = '\n' then [] :: splitNl cs
    else
      match splitNl cs with
      | [] => [[c]]
      | l :: ls => (c :: l) :: ls

/-- Skip JSON whitespace. -/
def skipWs (cs : List Char) : List Char := cs.dropWhile isJsonWs

/-- Consume an expected literal character sequence. -/
def dropLit : List Char → List Char → Option (List Char)
  | [], cs => some cs
  | l :: ls, c :: cs => if c = l then dropLit ls cs else none
  | _ :: _, [] => none

/-- Insert into an association list as `serde_json`'s map `insert` does:
replace the value if the key is present, otherwise append. -/
def insertEntry (es : List (String × Json)) (k : String) (v : Json) :
    List (String × Json) :=
  match es with
  | [] => [(k, v)]
  | (k', v') :: rest =>
    if k' = k then (k', v) :: rest else (k', v') :: insertEntry rest k v

/-- Short-form escape table of RFC 8259 as read by `serde_json`. -/
def escTable (e : Char) : Option Char :=
  if e = '"' then some '"'
  else if e = '\\' then some '\\'
  else if e = '/' then some '/'
  else if e = 'b' then some '\x08'
  else if e = 'f' then some '\x0c'
  else if e = 'n' then some '\n'
  else if e = 'r' then some '\r'
  else if e = 't' then some '\t'
  else none

/-- Body of a JSON string literal after the opening quote, as read by
`serde_json`: ends at the closing quote; a raw control character is an error;
escapes cover the eight short forms and `\uXXXX`, with surrogate pairs
combined and lone surrogates rejected. Returns the decoded characters and the
input after the closing quote. The fuel argument only bounds recursion depth;
each step consumes at least one input character, so `length + 1` always
suffices. -/
def parseStringBody : Nat → List Char → Option (List Char × List Char)
  | 0, _ => none
  | fuel + 1, cs =>
    match cs with
    | [] => none
    | c :: cs1 =>
      if c = '"' then some ([], cs1)
      else if c = '\\' then
        match cs1 with
        | [] => none
        | e :: cs2 =>
          if e = 'u' then
            match cs2 with
            | h1 :: h2 :: h3 :: h4 :: rest =>
              match hexVal h1, hexVal h2, hexVal h3, hexVal h4 with
              | some a, some b, some c1, some d =>
                let n := a * 4096 + b * 256 + c1 * 16 + d
                if 0xD800 ≤ n ∧ n < 0xDC00 then
                  match rest with
                  | '\\' :: 'u' :: g1 :: g2 :: g3 :: g4 :: rest2 =>
                    match hexVal g1, hexVal g2, hexVal g3, hexVal g4 with
                    | some a2, some b2, some c2, some d2 =>
                      let m := a2 * 4096 + b2 * 256 + c2 * 16 + d2
                      if 0xDC00 ≤ m ∧ m < 0xE000 then
                        (parseStringBody fuel rest2).map fun p =>
                          (Char.ofNat (0x10000 + (n - 0xD800) * 1024 + (m - 0xDC00)) :: p.1, p.2)
                      else none
                    | _, _, _, _ => none
                  | _ => none
                else if 0xDC00 ≤ n ∧ n < 0xE000 then none
                else (parseStringBody fuel rest).map fun p => (Char.ofNat n :: p.1, p.2)
              | _, _, _, _ => none
            | _ => none
          else
            match escTable e with
            | some d => (parseStringBody fuel cs2).map fun p => (d :: p.1, p.2)
            | none => none
      else if c.toNat < 32 then none
      else (parseStringBody fuel cs1).map fun p => (c :: p.1, p.2)

/-- Integer JSON number starting at `cs`, as accepted by `serde_json`:
optional minus, digits without a redundant leading zero. Numbers continuing
with a fraction or exponent take `serde_json`'s `Float` arm, which is outside
this embedding, so they are not produced here (`-0`, also a `Float` in
`serde_json`, is likewise approximated as the integer `0`). -/
def parseNumber (cs : List Char) : Option (Json × List Char) :=
  let neg := cs.head? = some '-'
  let cs1 := if neg then cs.tail else cs
  let ds := cs1.takeWhile Char.isDigit
  let rest := cs1.dropWhile Char.isDigit
  if ds = [] then none
  else if ds.head? = some '0' ∧ 1 < ds.length then none
  else if rest.head? = some '.' ∨ rest.head? = some 'e' ∨ rest.head? = some 'E' then none
  else
    let n : Nat := charsToNat ds
    some (.num (if neg then -(n : Int) else (n : Int)), rest)

mutual

/-- One JSON value starting at `cs` (leading whitespace allowed), as read by
`serde_json::from_str`; returns the value and the rest of the input. The fuel
argument bounds recursion depth; `jsize` of a value is always enough. -/
def parseValue : Nat → List Char → Option (Json × List Char)
  | 0, _ => none
  | fuel + 1, cs0 =>
    match skipWs cs0 with
    | [] => none
    | c :: rest =>
      if c = 'n' then (dropLit ['u', 'l', 'l'] rest).map fun r => (.null, r)
      else if c = 't' then (dropLit ['r', 'u', 'e'] rest).map fun r => (.bool true, r)
      else if c = 'f' then (dropLit ['a', 'l', 's', 'e'] rest).map fun r => (.bool false, r)
      else if c = '"' then
        (parseStringBody (rest.length + 1) rest).map fun p => (.str (String.mk p.1), p.2)
      else if c = '[' then
        let cs1 := skipWs rest
        if cs1.head? = some ']' then some (.arr [], cs1.tail)
        else parseElems fuel [] cs1
      else if c = '{' then
        let cs1 := skipWs rest
        if cs1.head? = some '}' then some (.obj [], cs1.tail)
        else parseMembers fuel [] cs1
      else parseNumber (c :: rest)

/-- Array elements from the first element on; `acc` holds the elements already
read. -/
def parseElems : Nat → List Json → List Char → Option (Json × List Char)
  | 0, _, _ => none
  | fuel + 1, acc, cs =>
    match parseValue fuel cs with
    | none => none
    | some (v, rest) =>
      let r := skipWs rest
      if r.head? = some ',' then parseElems fuel (acc ++ [v]) r.tail
      else if r.head? = some ']' then some (.arr (acc ++ [v]), r.tail)
      else none

/-- Object members from the first member on; `acc` holds the members already
read, combined with `insertEntry` as `serde_json` builds its map. -/
def parseMembers : Nat → List (String × Json) → List Char →
    Option (Json × List Char)
  | 0, _, _ => none
  | fuel + 1, acc, cs =>
    match skipWs cs with
    | [] => none
    | c :: rest =>
      if c = '"' then
        match parseStringBody (rest.length + 1) rest with
        | none => none
        | some (k, rest1) =>
          match skipWs rest1 with
          | [] => none
          | c2 :: rest2 =>
            if c2 = ':' then
              match parseValue fuel rest2 with
              | none => none
              | some (v, rest3) =>
                let acc1 := insertEntry acc (String.mk k) v
                let r := skipWs rest3
                if r.head? = some ',' then parseMembers fuel acc1 r.tail
                else if r.head? = some '}' then some (.obj acc1, r.tail)
                else none
            else none
      else none

end

/-- Model of `serde_json::from_str::<Value>` on one line: parse a value,
then require that only whitespace remains. The fuel `length + 1` suffices
for any input the parser can accept. -/
def parseJson (line : List Char) : Option Json :=
  match parseValue (line.length + 1) line with
  | some (v, rest) => if skipWs rest = [] then some v else none
  | none => none

/-- Body of `parse_ndjson` at the character-list level: split the raw text on
newlines, drop fragments that trim to empty, parse each remaining trimmed
fragment, and drop fragments that fail to parse. -/
def parse_lines (cs : List Char) : List Json :=
  ((splitNl cs).filter fun line => !(trimChars line).isEmpty).filterMap
    fun line => parseJson (trimChars line)

/-- Model of `parse_ndjson` (`ndjson.rs:14-25`). -/
def parse_ndjson (raw : String) : List Json :=
  parse_lines raw.data

/-- Keys of an object entry list are pairwise distinct (what a `serde_json`
map guarantees for its entries). -/
def keysND : List (String × Json) → Bool
  | [] => true
  | e :: es => (es.all fun e2 => e2.1 != e.1) && keysND es

mutual

/-- A `Json` value is well formed when every object in it has pairwise
distinct keys — exactly the values representable as a `serde_json::Value`,
whose maps cannot hold duplicate keys. -/
def Json.wf : Json → Bool
  | .null => true
  | .bool _ => true
  | .num _ => true
  | .str _ => true
  | .arr xs => Json.wfL xs
  | .obj es => keysND es && Json.wfE es

/-- All values in a list are well formed. -/
def Json.wfL : List Json → Bool
  | [] => true
  | x :: xs => Json.wf x && Json.wfL xs

/-- All values of an entry list are well formed. -/
def Json.wfE : List (String × Json) → Bool
  | [] => true
  | e :: es => Json.wf e.2 && Json.wfE es

end

mutual

/-- Fuel measure for `parseValue`: enough recursion depth to parse the
printed form of a value. -/
def jsize : Json → Nat
  | .null => 1
  | .bool _ => 1
  | .num _ => 1
  | .str _ => 1
  | .arr xs => 1 + jsizeL xs
  | .obj es => 1 + jsizeM es

/-- Fuel measure for `parseElems`. -/
def jsizeL : List Json → Nat
  | [] => 0
  | x :: xs => 1 + jsize x + jsizeL xs

/-- Fuel measure for `parseMembers`. -/
def jsizeM : List (String × Json) → Nat
  | [] => 0
  | e :: es => 1 + jsize e.2 + jsizeM es

end

/-- The continuations a printed value is followed by inside a printed frame:
end of input, or a comma, array close or object close. -/
def boundary : List Char → Bool
  | [] => true
  | c :: _ => c = ',' || c = ']' || c = '}'

/- ### Session data model (`types.rs`) -/

/-- Model of `SessionState` (`types.rs:13-36`). `total_cost_usd` is `f64` in
the source; it is only ever stored (never computed with), so it is modelled by
the exact numeric value of the frame field that sets it. `num_turns` is `u32`. -/
structure SessionState where
  session_id : String
  cli_session_id : Option String
  model : String
  cwd : String
  tools : List String
  permission_mode : String
  claude_code_version : String
  mcp_servers : List Json
  total_cost_usd : Int
  num_turns : Nat
  is_compacting : Bool
deriving DecidableEq, Repr

/-- Model of `SessionState::new` (`types.rs:40-54`). -/
def SessionState.new (session_id : String) : SessionState where
  session_id := session_id
  cli_session_id := none
  model := ""
  cwd := ""
  tools := []
  permission_mode := "default"
  claude_code_version := ""
  mcp_servers := []
  total_cost_usd := 0
  num_turns := 0
  is_compacting := false

/-- Model of `SessionState::update_from_init` (`types.rs:57-82`): each field
is overwritten only when the corresponding member is present with the right
shape. -/
def SessionState.update_from_init (st : SessionState) (data : Json) : SessionState :=
  let st := match (data.get "session_id").bind Json.asStr with
    | some s => { st with cli_session_id := some s }
    | none => st
  let st := match (data.get "model").bind Json.asStr with
    | some m => { st with model := m }
    | none => st
  let st := match (data.get "cwd").bind Json.asStr with
    | some c => { st with cwd := c }
    | none => st
  let st := match (data.get "tools").bind Json.asArr with
    | some arr => { st with tools := arr.filterMap Json.asStr }
    | none => st
  let st := match (data.get "permissionMode").bind Json.asStr with
    | some p => { st with permission_mode := p }
    | none => st
  let st := match (data.get "claude_code_version").bind Json.asStr with
    | some v => { st with claude_code_version := v }
    | none => st
  match (data.get "mcp_servers").bind Json.asArr with
    | some arr => { st with mcp_servers := arr }
    | none => st

/-- Serialization of `SessionState` by the derived `serde::Serialize`
(`serde_json::to_value`), fields in declaration order; `Option` serializes as
the value or `null`. -/
def SessionState.toJson (st : SessionState) : Json :=
  .obj [("session_id", .str st.session_id),
        ("cli_session_id", st.cli_session_id.elim Json.null Json.str),
        ("model", .str st.model),
        ("cwd", .str st.cwd),
        ("tools", .arr (st.tools.map Json.str)),
        ("permission_mode", .str st.permission_mode),
        ("claude_code_version", .str st.claude_code_version),
        ("mcp_servers", .arr st.mcp_servers),
        ("total_cost_usd", .num st.total_cost_usd),
        ("num_turns", .num st.num_turns),
        ("is_compacting", .bool st.is_compacting)]

/-- Model of `PendingPermission` (`types.rs:87-98`). -/
structure PendingPermission where
  request_id : String
  tool_name : String
  input : Json
  description : Option String
  timestamp : Nat
deriving DecidableEq, Repr

/-- Model of `Session` (`types.rs:101-116`). A `tokio::mpsc::Sender` is
modelled by the identity of its channel (a `Nat`); the messages pushed into a
channel are reported as `Effect`s by each operation. -/
structure Session where
  id : String
  cli_tx : Option Nat
  client_senders : List Nat
  state : SessionState
  pending_permissions : List (String × PendingPermission)
  pending_messages : List String
  message_history : List Json
deriving DecidableEq, Repr

/-- Model of `Session::new` (`types.rs:120-130`). -/
def Session.new (id : String) : Session where
  id := id
  cli_tx := none
  client_senders := []
  state := SessionState.new id
  pending_permissions := []
  pending_messages := []
  message_history := []

/-- One message handed to a channel by the bridge: either a send on the
session's upstream `cli_tx` channel, or a send on a subscriber channel
identified by `chan`. The source awaits each send and ignores (or merely
logs) its result, so the effect trace records every attempted send in
order. -/
inductive Effect where
  | cli (msg : String)
  | client (chan : Nat) (msg : String)
deriving DecidableEq, Repr

/-- Association-list lookup keyed by strings (first match), modelling
`HashMap` lookup. -/
def lookupAL {α : Type} : List (String × α) → String → Option α
  | [], _ => none
  | (k', v) :: rest, k => if k' = k then some v else lookupAL rest k

/-- Association-list insert modelling `HashMap::insert`: replace the value if
the key is present, otherwise append. -/
def insertAL {α : Type} : List (String × α) → String → α → List (String × α)
  | [], k, v => [(k, v)]
  | (k', v') :: rest, k, v =>
    if k' = k then (k', v) :: rest else (k', v') :: insertAL rest k v

/-- Association-list removal modelling `HashMap::remove`. -/
def removeAL {α : Type} : List (String × α) → String → List (String × α)
  | [], _ => []
  | (k', v) :: rest, k =>
    if k' = k then removeAL rest k else (k', v) :: removeAL rest k

/-- Update the entry at a key in place, modelling `get_mut` plus mutation. -/
def updateAL {α : Type} : List (String × α) → String → (α → α) → List (String × α)
  | [], _, _ => []
  | (k', v) :: rest, k, f =>
    if k' = k then (k', f v) :: rest else (k', v) :: updateAL rest k f

/- ### Router and session operations (`bridge.rs`) -/

/-- Model of `broadcast_to_clients` (`bridge.rs:455-461`) at the effect-trace
level: one send per subscriber channel, in order. (Send errors on closed
channels are only logged; `bchan_broadcast` below refines the bounded-channel
semantics of these sends.) -/
def broadcast_to_clients (senders : List Nat) (message : String) : List Effect :=
  senders.map fun c => .client c message

/-- Model of `send_to_cli` (`bridge.rs:464-476`): send on the upstream channel
when it is installed, otherwise queue the message in `pending_messages`. -/
def send_to_cli (s : Session) (message : String) : Session × List Effect :=
  match s.cli_tx with
  | some _ => (s, [.cli message])
  | none => ({ s with pending_messages := s.pending_messages ++ [message] }, [])

namespace Session

/-- Session-level body of `WsBridge::register_cli` (`bridge.rs:44-63`):
install the upstream channel, then flush the queued pending messages to it in
order. -/
def register_cli (s : Session) (chan : Nat) : Session × List Effect :=
  let s1 := { s with cli_tx := some chan }
  let pending := s1.pending_messages
  ({ s1 with pending_messages := [] }, pending.map Effect.cli)

/-- Session-level body of `WsBridge::unregister_cli` (`bridge.rs:66-73`):
drop the upstream channel and cancel all pending permissions. -/
def unregister_cli (s : Session) : Session :=
  { s with cli_tx := none, pending_permissions := [] }

/-- Session-level body of `WsBridge::register_client` (`bridge.rs:76-92`):
add the subscriber channel and return the state, history and pending
permission snapshots for replay. -/
def register_client (s : Session) (chan : Nat) :
    Session × SessionState × List Json × List PendingPermission :=
  ({ s with client_senders := s.client_senders ++ [chan] },
    s.state, s.message_history, s.pending_permissions.map (·.2))

/-- Session-level body of `WsBridge::unregister_client` (`bridge.rs:95-102`):
remove the specific subscriber channel by identity. -/
def unregister_client (s : Session) (chan : Nat) : Session :=
  { s with client_senders := s.client_senders.filter (· ≠ chan) }

end Session

/-- The `session_init` frame synthesized on `system/init` (`bridge.rs:142-146`)
and on subscriber attach (`client_handler.rs:71-75`). -/
def session_init_frame (session_id : String) (st : SessionState) : Json :=
  .obj [("type", .str "session_init"),
        ("session_id", .str session_id),
        ("state", st.toJson)]

namespace Session

/-- Session-level body of `WsBridge::route_cli_message` (`bridge.rs:107-265`),
given the wall clock `now` (millis) read in the `can_use_tool` branch.
Returns the updated session and the channel sends performed. -/
def route_cli_message (session_id : String) (now : Nat) (s : Session) (j : Json) :
    Session × List Effect :=
  match frame_type j with
  | none => (s, [])
  | some msg_type =>
    if msg_type = "system" then
      let subtype := ((j.get "subtype").bind Json.asStr).getD ""
      if subtype = "init" then
        let st := s.state.update_from_init j
        let s1 := { s with state := st }
        let init_msg := session_init_frame session_id st
        (s1, broadcast_to_clients s1.client_senders (to_ndjson init_msg))
      else if subtype = "status" then
        let s1 := match j.get "status" with
          | some status =>
            { s with state :=
              { s.state with is_compacting := status.asStr = some "compacting" } }
          | none => s
        (s1, broadcast_to_clients s1.client_senders (to_ndjson j))
      else
        (s, broadcast_to_clients s.client_senders (to_ndjson j))
    else if msg_type = "assistant" then
      ({ s with message_history := s.message_history ++ [j] },
        broadcast_to_clients s.client_senders (to_ndjson j))
    else if msg_type = "result" then
      let st := match (j.get "total_cost_usd").bind Json.asNum with
        | some cost => { s.state with total_cost_usd := cost }
        | none => s.state
      let st := match (j.get "num_turns").bind Json.asU64 with
        | some turns => { st with num_turns := turns % 2 ^ 32 }
        | none => st
      ({ s with state := st, message_history := s.message_history ++ [j] },
        broadcast_to_clients s.client_senders (to_ndjson j))
    else if msg_type = "stream_event" then
      (s, broadcast_to_clients s.client_senders (to_ndjson j))
    else if msg_type = "control_request" then
      match j.get "request" with
      | some request =>
        if (request.get "subtype").bind Json.asStr = some "can_use_tool" then
          let request_id := (((j.get "request_id").bind Json.asStr).getD "")
          let tool_name := (((request.get "tool_name").bind Json.asStr).getD "")
          let input := (request.get "input").getD (Json.obj [])
          let description := (request.get "description").bind Json.asStr
          let pending : PendingPermission :=
            ⟨request_id, tool_name, input, description, now⟩
          let pp := insertAL s.pending_permissions request_id pending
          let s1 := { s with pending_permissions := pp }
          let perm_msg := Json.obj
            [("type", .str "permission_request"),
             ("request_id", (j.get "request_id").getD Json.null),
             ("request", request)]
          (s1, broadcast_to_clients s1.client_senders (to_ndjson perm_msg))
        else
          (s, broadcast_to_clients s.client_senders (to_ndjson j))
      | none => (s, [])
    else if msg_type = "tool_progress" ∨ msg_type = "tool_use_summary" then
      (s, broadcast_to_clients s.client_senders (to_ndjson j))
    else if msg_type = "keep_alive" then
      (s, [])
    else
      (s, broadcast_to_clients s.client_senders (to_ndjson j))

/-- Session-level body of `WsBridge::route_client_message`
(`bridge.rs:270-418`), given the fresh UUID `fresh` drawn in the branches that
need one. Returns the updated session and the channel sends performed. -/
def route_client_message (fresh : String) (s : Session) (j : Json) :
    Session × List Effect :=
  match frame_type j with
  | none => (s, [])
  | some msg_type =>
    if msg_type = "user_message" then
      let content := ((j.get "content").bind Json.asStr).getD ""
      let cli_session_id := s.state.cli_session_id.getD ""
      let user_msg := Json.obj
        [("type", .str "user"),
         ("message", Json.obj [("role", .str "user"), ("content", .str content)]),
         ("parent_tool_use_id", Json.null),
         ("session_id", .str cli_session_id)]
      send_to_cli s (to_ndjson user_msg)
    else if msg_type = "permission_response" then
      let request_id := ((j.get "request_id").bind Json.asStr).getD ""
      let pp := removeAL s.pending_permissions request_id
      let s1 := { s with pending_permissions := pp }
      let behavior := ((j.get "behavior").bind Json.asStr).getD "deny"
      let response_payload :=
        if behavior = "allow" then
          Json.obj [("behavior", .str "allow"),
                    ("updatedInput", (j.get "updated_input").getD (Json.obj []))]
        else
          Json.obj [("behavior", .str "deny"),
                    ("message", .str (((j.get "message").bind Json.asStr).getD
                      "Permission denied by user"))]
      let control_response := Json.obj
        [("type", .str "control_response"),
         ("response", Json.obj
           [("subtype", .str "success"),
            ("request_id", .str request_id),
            ("response", response_payload)])]
      send_to_cli s1 (to_ndjson control_response)
    else if msg_type = "interrupt" then
      let interrupt_msg := Json.obj
        [("type", .str "control_request"),
         ("request_id", .str fresh),
         ("request", Json.obj [("subtype", .str "interrupt")])]
      send_to_cli s (to_ndjson interrupt_msg)
    else if msg_type = "set_model" then
      let model := ((j.get "model").bind Json.asStr).getD "default"
      let msg := Json.obj
        [("type", .str "control_request"),
         ("request_id", .str fresh),
         ("request", Json.obj [("subtype", .str "set_model"), ("model", .str model)])]
      send_to_cli s (to_ndjson msg)
    else if msg_type = "set_permission_mode" then
      let mode := ((j.get "mode").bind Json.asStr).getD "default"
      let msg := Json.obj
        [("type", .str "control_request"),
         ("request_id", .str fresh),
         ("request", Json.obj [("subtype", .str "set_permission_mode"), ("mode", .str mode)])]
      send_to_cli s (to_ndjson msg)
    else
      (s, [])

end Session

/- ### The bridge registry (`WsBridge`, `bridge.rs:18-451`) -/

/-- The `WsBridge` session registry: `HashMap<String, Session>` modelled as an
association list. -/
def Bridge : Type := List (String × Session)

namespace WsBridge

/-- Model of `WsBridge::create_session` (`bridge.rs:31-36`). -/
def create_session (b : Bridge) (session_id : String) : Bridge × SessionState :=
  let session := Session.new session_id
  (insertAL b session_id session, session.state)

/-- Model of `WsBridge::remove_session` (`bridge.rs:39-41`). -/
def remove_session (b : Bridge) (session_id : String) : Bridge × Bool :=
  (removeAL b session_id, (lookupAL b session_id).isSome)

/-- Model of `WsBridge::register_cli` (`bridge.rs:44-63`): no-op when the
session is absent. -/
def register_cli (b : Bridge) (session_id : String) (chan : Nat) :
    Bridge × List Effect :=
  match lookupAL b session_id with
  | none => (b, [])
  | some s =>
    let r := Session.register_cli s chan
    (updateAL b session_id fun _ => r.1, r.2)

/-- Model of `WsBridge::unregister_cli` (`bridge.rs:66-73`). -/
def unregister_cli (b : Bridge) (session_id : String) : Bridge :=
  updateAL b session_id Session.unregister_cli

/-- Model of `WsBridge::register_client` (`bridge.rs:76-92`): `None` when the
session is absent. -/
def register_client (b : Bridge) (session_id : String) (chan : Nat) :
    Bridge × Option (SessionState × List Json × List PendingPermission) :=
  match lookupAL b session_id with
  | none => (b, none)
  | some s =>
    let r := Session.register_client s chan
    (updateAL b session_id fun _ => r.1, some r.2)

/-- Model of `WsBridge::unregister_client` (`bridge.rs:95-102`). -/
def unregister_client (b : Bridge) (session_id : String) (chan : Nat) : Bridge :=
  updateAL b session_id fun s => Session.unregister_client s chan

/-- Model of `WsBridge::route_cli_message` (`bridge.rs:107-265`): no-op when
the session is absent. -/
def route_cli_message (b : Bridge) (session_id : String) (now : Nat) (j : Json) :
    Bridge × List Effect :=
  match lookupAL b session_id with
  | none => (b, [])
  | some s =>
    let r := Session.route_cli_message session_id now s j
    (updateAL b session_id fun _ => r.1, r.2)

/-- Model of `WsBridge::route_client_message` (`bridge.rs:270-418`): no-op
when the session is absent. -/
def route_client_message (b : Bridge) (session_id : String) (fresh : String) (j : Json) :
    Bridge × List Effect :=
  match lookupAL b session_id with
  | none => (b, [])
  | some s =>
    let r := Session.route_client_message fresh s j
    (updateAL b session_id fun _ => r.1, r.2)

end WsBridge

/- ### Endpoint flows (`cli_handler.rs`, `client_handler.rs`) -/

/-- The `permission_request` frame synthesized for each outstanding pending
permission on subscriber attach (`client_handler.rs:98-108`). -/
def pending_perm_frame (perm : PendingPermission) : Json :=
  .obj [("type", .str "permission_request"),
        ("request_id", .str perm.request_id),
        ("request", .obj
          [("subtype", .str "can_use_tool"),
           ("tool_name", .str perm.tool_name),
           ("input", perm.input),
           ("description", perm.description.elim Json.null Json.str)])]

/-- The replay frames written to a newly attached subscriber's socket before
its write task starts draining live frames (`handle_client_socket`,
`client_handler.rs:70-117`, success path): the `session_init` frame, then the
history snapshot in order, then one `permission_request` frame per pending
permission in the snapshot. -/
def client_attach_frames (session_id : String) (st : SessionState)
    (history : List Json) (pending : List PendingPermission) : List String :=
  to_ndjson (session_init_frame session_id st)
    :: history.map to_ndjson
    ++ pending.map fun perm => to_ndjson (pending_perm_frame perm)

/- ### Bounded-channel refinement of the fan-out sends -/

/-- A bounded `tokio::sync::mpsc` channel as seen by a sender: its capacity,
the messages currently queued (sent but not yet drained by the receiver), and
whether the receiver half is still alive. -/
structure BChan where
  capacity : Nat
  queued : List String
  receiver_alive : Bool
deriving DecidableEq, Repr

/-- Outcome of one `Sender::send(msg).await`. -/
inductive SendOutcome where
  | delivered
  | closed
  | blocked
deriving DecidableEq, Repr

/-- Semantics of `Sender::send(msg).await` on a bounded channel: an error
immediately when the receiver is gone; an enqueue when there is capacity;
otherwise the send suspends until the receiver frees a slot. -/
def bchan_send (c : BChan) (msg : String) : BChan × SendOutcome :=
  if !c.receiver_alive then (c, .closed)
  else if c.queued.length < c.capacity then
    ({ c with queued := c.queued ++ [msg] }, .delivered)
  else (c, .blocked)

/-- `broadcast_to_clients` (`bridge.rs:455-461`) at the bounded-channel level:
the loop awaits `sender.send` for each subscriber in order. A send to a
closed channel returns an error immediately and the loop continues; a send to
a full channel with a live receiver suspends, so the sinks after it are not
reached (and the registry write lock held by the router stays held). Returns
the channels after the call and whether the loop ran to completion. -/
def bchan_broadcast (chans : List BChan) (msg : String) : List BChan × Bool :=
  match chans with
  | [] => ([], true)
  | c :: rest =>
    match bchan_send c msg with
    | (c1, .blocked) => (c1 :: rest, false)
    | (c1, _) =>
      let r := bchan_broadcast rest msg
      (c1 :: r.1, r.2)

/- ### Operation sequences over one session -/

/-- A routing call on one session: a frame from the CLI (with the wall clock
read during the call) or a frame from a subscriber (with the fresh UUID drawn
during the call). -/
inductive RouteStep where
  | fromCli (session_id : String) (now : Nat) (j : Json)
  | fromClient (fresh : String) (j : Json)

/-- Run a sequence of routing calls on a session, discarding effect traces. -/
def runRoutes (s : Session) : List RouteStep → Session
  | [] => s
  | step :: rest =>
    let s1 := match step with
      | .fromCli sid now j => (Session.route_cli_message sid now s j).1
      | .fromClient fresh j => (Session.route_client_message fresh s j).1
    runRoutes s1 rest

/-- Any of the bridge's session-mutating operations, restricted to one
session. -/
inductive BridgeOp where
  | reg_cli (chan : Nat)
  | unreg_cli
  | reg_client (chan : Nat)
  | unreg_client (chan : Nat)
  | from_cli (session_id : String) (now : Nat) (j : Json)
  | from_client (fresh : String) (j : Json)

/-- Apply one bridge operation to a session, discarding effect traces and
snapshots. -/
def applyOp (s : Session) : BridgeOp → Session
  | .reg_cli chan => (Session.register_cli s chan).1
  | .unreg_cli => Session.unregister_cli s
  | .reg_client chan => (Session.register_client s chan).1
  | .unreg_client chan => Session.unregister_client s chan
  | .from_cli sid now j => (Session.route_cli_message sid now s j).1
  | .from_client fresh j => (Session.route_client_message fresh s j).1

/-- Run a sequence of bridge operations on a session. -/
def runOps (s : Session) : List BridgeOp → Session
  | [] => s
  | op :: rest => runOps (applyOp s op) rest

/-- The frames a routing call directs at the upstream process: sends on the
`cli_tx` channel plus messages newly queued in `pending_messages` (which
`register_cli` later flushes upstream in order). -/
def upstream_frames (s : Session) (r : Session × List Effect) : List String :=
  (r.2.filterMap fun e => match e with
    | .cli m => some m
    | .client _ _ => none)
    ++ r.1.pending_messages.drop s.pending_messages.length

/- ### Registry lemmas -/

theorem lookupAL_updateAL {α : Type} (l : List (String × α)) (k : String) (f : α → α) :
    lookupAL (updateAL l k f) k = (lookupAL l k).map f := by
  induction l with
  | nil => rfl
  | cons e rest ih =>
    obtain ⟨k', v⟩ := e
    by_cases h : k' = k <;> simp [updateAL, lookupAL, h, ih]

theorem lookupAL_updateAL_ne {α : Type} (l : List (String × α)) (k k2 : String)
    (f : α → α) (h : k2 ≠ k) : lookupAL (updateAL l k f) k2 = lookupAL l k2 := by
  induction l with
  | nil => rfl
  | cons e rest ih =>
    obtain ⟨k', v⟩ := e
    by_cases h1 : k' = k
    · subst h1
      simp [updateAL, lookupAL, Ne.symm h]
    · by_cases h2 : k' = k2 <;> simp [updateAL, lookupAL, h1, h2, h, ih]

/- ### Claim C1 — upstream sink re-attach -/

/-- Concrete trace refuting claim C1 as stated: create a session, attach the
upstream (channel 1), detach it, then call `register_cli` again with channel
2. After the detach `cli_tx` is `None`, yet the later `register_cli` call
sets it back to `Some 2`: the bridge does not enforce the
`None → Some → None`-at-most-once discipline. -/
theorem claim1_counterexample :
    (lookupAL (WsBridge.unregister_cli
        (WsBridge.register_cli (WsBridge.create_session [] "s").1 "s" 1).1 "s") "s").map
      Session.cli_tx = some none ∧
    (lookupAL (WsBridge.register_cli (WsBridge.unregister_cli
        (WsBridge.register_cli (WsBridge.create_session [] "s").1 "s" 1).1 "s") "s" 2).1
        "s").map Session.cli_tx = some (some 2) := by
  constructor <;> rfl

/-- Claim C1 amended: `register_cli` on an existing session unconditionally
installs the new upstream channel, even after `unregister_cli` has reset it
to `None`; the once-per-lifetime discipline is not enforced by the bridge (a
re-attaching process reuses the same session). -/
theorem claim1_theorem (b : Bridge) (sid : String) (c1 c2 : Nat) (s : Session)
    (h : lookupAL b sid = some s) :
    (lookupAL (WsBridge.register_cli (WsBridge.unregister_cli
        (WsBridge.register_cli b sid c1).1 sid) sid c2).1 sid).map
      Session.cli_tx = some (some c2) := by
  have h1 : (WsBridge.register_cli b sid c1).1 =
      updateAL b sid fun _ => (Session.register_cli s c1).1 := by
    simp [WsBridge.register_cli, h]
  set b1 := WsBridge.unregister_cli (WsBridge.register_cli b sid c1).1 sid with hb1
  have h2 : lookupAL b1 sid =
      some (Session.unregister_cli (Session.register_cli s c1).1) := by
    simp [hb1, WsBridge.unregister_cli, h1, lookupAL_updateAL, h]
  simp only [WsBridge.register_cli, h2]
  rw [lookupAL_updateAL, h2]
  simp [Session.register_cli]

/-- Witness instantiating `claim1_theorem` on a concrete registry. -/
theorem claim1_witness :
    lookupAL (WsBridge.create_session [] "w1").1 "w1" = some (Session.new "w1") ∧
    (lookupAL (WsBridge.register_cli (WsBridge.unregister_cli
        (WsBridge.register_cli (WsBridge.create_session [] "w1").1 "w1" 3).1 "w1") "w1" 4).1
        "w1").map Session.cli_tx = some (some 4) :=
  ⟨rfl, claim1_theorem (WsBridge.create_session [] "w1").1 "w1" 3 4 (Session.new "w1") rfl⟩

/- ### Claim C9 — unregister_cli effects -/

/-- Claim C9: on upstream detach (also run when the process exits),
`unregister_cli` resets `cli_tx` to `None` and empties
`pending_permissions`, and changes nothing else: the session stays in the
registry with identical `id`, `state`, `message_history`, `client_senders`
and `pending_messages`, and every other session is untouched. -/
theorem claim9_theorem (b : Bridge) (sid : String) (s : Session)
    (h : lookupAL b sid = some s) :
    lookupAL (WsBridge.unregister_cli b sid) sid =
      some { s with cli_tx := none, pending_permissions := [] } ∧
    ∀ k, k ≠ sid → lookupAL (WsBridge.unregister_cli b sid) k = lookupAL b k := by
  refine ⟨?_, ?_⟩
  · simp [WsBridge.unregister_cli, lookupAL_updateAL, h, Session.unregister_cli]
  · intro k hk
    exact lookupAL_updateAL_ne b sid k _ hk

/-- A session with an attached upstream, one subscriber, one pending
permission, some history and a queued upstream message. -/
def claim9_session : Session :=
  { Session.new "a" with
    cli_tx := some 1
    client_senders := [2]
    pending_permissions := [("r1", ⟨"r1", "shell", Json.obj [], none, 5⟩)]
    pending_messages := ["queued"]
    message_history := [Json.obj [("type", Json.str "assistant")]] }

/-- A registry holding `claim9_session` and one fresh session. -/
def claim9_bridge : Bridge := [("a", claim9_session), ("b", Session.new "b")]

/-- Witness instantiating `claim9_theorem` on a registry with two sessions,
one of them with an attached upstream and a pending permission. -/
theorem claim9_witness :
    lookupAL claim9_bridge "a" = some claim9_session ∧
    lookupAL (WsBridge.unregister_cli claim9_bridge "a") "a" =
      some { claim9_session with cli_tx := none, pending_permissions := [] } ∧
    lookupAL (WsBridge.unregister_cli claim9_bridge "a") "b" = lookupAL claim9_bridge "b" := by
  have h := claim9_theorem claim9_bridge "a" claim9_session rfl
  exact ⟨rfl, h.1, h.2 "b" (by decide)⟩

/- ### Claim C2 — fan-out blocking -/

/-- Concrete refutation of claim C2 as stated: two subscribers of one
session; the first subscriber's bounded channel is full (capacity 1, one
queued message) with a live reader, the second subscriber's channel is empty.
Broadcasting a frame suspends on the first sink, so the loop does not
complete and the second subscriber — despite having room — is not delivered
the frame: the first call of `sender.send(...).await` in
`broadcast_to_clients` delays the others. -/
theorem claim2_counterexample :
    (bchan_broadcast [⟨1, ["m0"], true⟩, ⟨1, [], true⟩] "m1").2 = false ∧
    ((bchan_broadcast [⟨1, ["m0"], true⟩, ⟨1, [], true⟩] "m1").1.map BChan.queued) =
      [["m0"], []] := by
  constructor <;> rfl

/-- Claim C2 amended: `broadcast_to_clients` awaits a bounded send on each
subscriber sink in order. A sink whose reader has stopped fails immediately
and does not delay the others, and when no sink is simultaneously full and
live the loop completes, delivering the frame to every live sink — but a
full sink with a live reader suspends the loop (claim2_counterexample), so
non-blocking isolation holds only under this hypothesis. -/
theorem claim2_theorem (chans : List BChan) (msg : String)
    (h : ∀ c ∈ chans, c.receiver_alive = true → c.queued.length < c.capacity) :
    (bchan_broadcast chans msg).2 = true ∧
    (bchan_broadcast chans msg).1 = chans.map fun c =>
      if c.receiver_alive then { c with queued := c.queued ++ [msg] } else c := by
  induction chans with
  | nil => exact ⟨rfl, rfl⟩
  | cons c rest ih =>
    have hc := h c (by simp)
    have hrest := ih fun x hx => h x (List.mem_cons_of_mem _ hx)
    by_cases ha : c.receiver_alive = true
    · have hlt := hc ha
      simp [bchan_broadcast, bchan_send, ha, hlt, hrest.1, hrest.2]
    · simp only [Bool.not_eq_true] at ha
      simp [bchan_broadcast, bchan_send, ha, hrest.1, hrest.2]

/-- Witness instantiating `claim2_theorem`: one closed sink followed by a
live sink with room; the broadcast completes and the live sink receives the
frame. -/
theorem claim2_witness :
    (∀ c ∈ [(⟨1, [], false⟩ : BChan), ⟨2, ["old"], true⟩],
      c.receiver_alive = true → c.queued.length < c.capacity) ∧
    (bchan_broadcast [⟨1, [], false⟩, ⟨2, ["old"], true⟩] "m").2 = true ∧
    ((bchan_broadcast [⟨1, [], false⟩, ⟨2, ["old"], true⟩] "m").1.map BChan.queued) =
      [[], ["old", "m"]] := by
  have h : ∀ c ∈ [(⟨1, [], false⟩ : BChan), ⟨2, ["old"], true⟩],
      c.receiver_alive = true → c.queued.length < c.capacity := by decide
  have r := claim2_theorem [⟨1, [], false⟩, ⟨2, ["old"], true⟩] "m" h
  exact ⟨h, r.1, by rw [r.2]; rfl⟩

/- ### Claim C8 — control_request with other subtypes -/

/-- Concrete refutation of claim C8 as stated: a `control_request` frame with
no `request` member is silently dropped by `route_cli_message` (the
`if let Some(request)` guard at `bridge.rs:195` has no else branch), not
broadcast to the session's subscriber (channel 7). -/
theorem claim8_counterexample :
    (Session.route_cli_message "s" 0
        { Session.new "s" with client_senders := [7] }
        (Json.obj [("type", Json.str "control_request")])).2 = [] ∧
    (Session.route_cli_message "s" 0
        { Session.new "s" with client_senders := [7] }
        (Json.obj [("type", Json.str "control_request")])).2 ≠
      broadcast_to_clients [7]
        (to_ndjson (Json.obj [("type", Json.str "control_request")])) := by
  constructor
  · rfl
  · decide

/-- Claim C8 amended: a `control_request` frame whose `request` member is
present with a subtype other than `can_use_tool` is broadcast unchanged to
all subscriber sinks with the session state untouched; a `control_request`
frame with no `request` member is silently dropped (nothing broadcast, state
untouched). -/
theorem claim8_theorem (sid : String) (now : Nat) (s : Session) (j req : Json)
    (hty : frame_type j = some "control_request") :
    (j.get "request" = some req →
      (req.get "subtype").bind Json.asStr ≠ some "can_use_tool" →
      Session.route_cli_message sid now s j =
        (s, broadcast_to_clients s.client_senders (to_ndjson j))) ∧
    (j.get "request" = none →
      Session.route_cli_message sid now s j = (s, [])) := by
  constructor
  · intro hreq hsub
    simp [Session.route_cli_message, hty, hreq, hsub]
  · intro hreq
    simp [Session.route_cli_message, hty, hreq]

/-- A session with two subscribers, used by concrete routing witnesses. -/
def claim8_session : Session :=
  { Session.new "s" with client_senders := [7, 8] }

/-- A `control_request` frame whose subtype is not `can_use_tool`. -/
def claim8_frame : Json :=
  Json.obj [("type", Json.str "control_request"),
            ("request_id", Json.str "r9"),
            ("request", Json.obj [("subtype", Json.str "interrupt")])]

/-- Witness instantiating `claim8_theorem` on a concrete session and a
concrete `control_request` frame with an `interrupt` subtype. -/
theorem claim8_witness :
    frame_type claim8_frame = some "control_request" ∧
    claim8_frame.get "request" = some (Json.obj [("subtype", Json.str "interrupt")]) ∧
    Session.route_cli_message "s" 3 claim8_session claim8_frame =
      (claim8_session, broadcast_to_clients claim8_session.client_senders
        (to_ndjson claim8_frame)) := by
  refine ⟨rfl, rfl, ?_⟩
  have h := claim8_theorem "s" 3 claim8_session claim8_frame
    (Json.obj [("subtype", Json.str "interrupt")]) rfl
  exact h.1 rfl (by decide)

/- ### Claim C10 — user_message transformation -/

/-- The frame `route_client_message` emits upstream for a `user_message`
(`bridge.rs:301-309`). -/
def user_msg_frame (content cli_session_id : String) : Json :=
  Json.obj
    [("type", .str "user"),
     ("message", Json.obj [("role", .str "user"), ("content", .str content)]),
     ("parent_tool_use_id", Json.null),
     ("session_id", .str cli_session_id)]

/-- Claim C10: routing any `user_message` frame emits upstream exactly one
frame of the shape `{type:"user", message:{role:"user", content},
parent_tool_use_id:null, session_id}`, with `content` the empty string when
the incoming `content` member is missing or not a string, and `session_id`
the empty string when no `system/init` has been observed yet
(`cli_session_id` is `None`); the frame is never dropped for these reasons.
The rest of the session is unchanged. -/
theorem claim10_theorem (fresh : String) (s : Session) (j : Json)
    (hty : frame_type j = some "user_message") :
    upstream_frames s (Session.route_client_message fresh s j) =
      [to_ndjson (user_msg_frame (((j.get "content").bind Json.asStr).getD "")
        (s.state.cli_session_id.getD ""))] ∧
    (Session.route_client_message fresh s j).1.cli_tx = s.cli_tx ∧
    (Session.route_client_message fresh s j).1.message_history = s.message_history ∧
    (Session.route_client_message fresh s j).1.client_senders = s.client_senders ∧
    (Session.route_client_message fresh s j).1.state = s.state ∧
    (Session.route_client_message fresh s j).1.pending_permissions = s.pending_permissions := by
  have hbody : Session.route_client_message fresh s j =
      send_to_cli s (to_ndjson (user_msg_frame (((j.get "content").bind Json.asStr).getD "")
        (s.state.cli_session_id.getD ""))) := by
    simp [Session.route_client_message, hty, user_msg_frame]
  rw [hbody]
  cases hc : s.cli_tx with
  | none => simp [send_to_cli, hc, upstream_frames]
  | some c => simp [send_to_cli, hc, upstream_frames]

/-- Witness instantiating `claim10_theorem` on a `user_message` with no
`content` member, routed into a session that has not seen `system/init`. -/
theorem claim10_witness :
    frame_type (Json.obj [("type", Json.str "user_message")]) = some "user_message" ∧
    upstream_frames claim8_session
      (Session.route_client_message "f1" claim8_session
        (Json.obj [("type", Json.str "user_message")])) =
      [to_ndjson (user_msg_frame "" "")] := by
  refine ⟨rfl, ?_⟩
  have h0 := claim10_theorem "f1" claim8_session
    (Json.obj [("type", Json.str "user_message")]) rfl
  simpa using h0.1

/- ### Claim C7 — permission_response transformation -/

/-- The `control_response` frame `route_client_message` emits upstream for a
`permission_response` (`bridge.rs:329-356`): payload
`{behavior:"allow", updatedInput}` when the frame's `behavior` member is the
string `"allow"` (with `updatedInput` defaulting to `{}`), otherwise
`{behavior:"deny", message}` (with the message defaulting to a fixed text). -/
def control_response_frame (j : Json) (request_id : String) : Json :=
  let payload :=
    if ((j.get "behavior").bind Json.asStr).getD "deny" = "allow" then
      Json.obj [("behavior", .str "allow"),
                ("updatedInput", (j.get "updated_input").getD (Json.obj []))]
    else
      Json.obj [("behavior", .str "deny"),
                ("message", .str (((j.get "message").bind Json.asStr).getD
                  "Permission denied by user"))]
  Json.obj
    [("type", .str "control_response"),
     ("response", Json.obj
       [("subtype", .str "success"),
        ("request_id", .str request_id),
        ("response", payload)])]

/-- Claim C7: routing a `permission_response` frame carrying a `request_id`
removes the matching entry from the session's pending-permission table and
emits upstream exactly one `control_response` frame
`{type:"control_response", response:{subtype:"success", request_id,
response:payload}}`, with the allow/deny payload chosen by the frame's
`behavior` member. Nothing else in the session changes. -/
theorem claim7_theorem (fresh : String) (s : Session) (j : Json) (rid : String)
    (hty : frame_type j = some "permission_response")
    (hrid : (j.get "request_id").bind Json.asStr = some rid) :
    (Session.route_client_message fresh s j).1.pending_permissions =
      removeAL s.pending_permissions rid ∧
    upstream_frames s (Session.route_client_message fresh s j) =
      [to_ndjson (control_response_frame j rid)] ∧
    (Session.route_client_message fresh s j).1.cli_tx = s.cli_tx ∧
    (Session.route_client_message fresh s j).1.message_history = s.message_history ∧
    (Session.route_client_message fresh s j).1.client_senders = s.client_senders ∧
    (Session.route_client_message fresh s j).1.state = s.state := by
  have hbody : Session.route_client_message fresh s j =
      send_to_cli { s with pending_permissions := removeAL s.pending_permissions rid }
        (to_ndjson (control_response_frame j rid)) := by
    simp only [Session.route_client_message, hty, hrid]
    simp [control_response_frame]
  rw [hbody]
  cases hc : s.cli_tx with
  | none => simp [send_to_cli, hc, upstream_frames]
  | some c => simp [send_to_cli, hc, upstream_frames]

/-- A session holding two pending permissions, with an attached upstream. -/
def claim7_session : Session :=
  { Session.new "s" with
    cli_tx := some 1
    pending_permissions :=
      [("r1", ⟨"r1", "shell", Json.obj [("cmd", Json.str "ls")], none, 5⟩),
       ("r2", ⟨"r2", "edit", Json.obj [], some "d", 6⟩)] }

/-- An allow `permission_response` for request `r1` (spec scenario 3). -/
def claim7_frame : Json :=
  Json.obj [("type", Json.str "permission_response"),
            ("request_id", Json.str "r1"),
            ("behavior", Json.str "allow"),
            ("updated_input", Json.obj [("cmd", Json.str "ls")])]

/-- Witness instantiating `claim7_theorem` on spec scenario 3: the pending
entry for `r1` is removed (leaving `r2`) and the allow `control_response` is
the single upstream emission. -/
theorem claim7_witness :
    frame_type claim7_frame = some "permission_response" ∧
    (Session.route_client_message "f" claim7_session claim7_frame).1.pending_permissions =
      [("r2", ⟨"r2", "edit", Json.obj [], some "d", 6⟩)] ∧
    upstream_frames claim7_session
      (Session.route_client_message "f" claim7_session claim7_frame) =
      [to_ndjson (control_response_frame claim7_frame "r1")] := by
  have h := claim7_theorem "f" claim7_session claim7_frame "r1" rfl rfl
  exact ⟨rfl, by rw [h.1]; rfl, h.2.1⟩

/- ### Route characterization lemmas -/

theorem route_cli_upstream_fields (sid : String) (now : Nat) (s : Session) (j : Json) :
    (Session.route_cli_message sid now s j).1.cli_tx = s.cli_tx ∧
    (Session.route_cli_message sid now s j).1.pending_messages = s.pending_messages ∧
    (Session.route_cli_message sid now s j).1.client_senders = s.client_senders := by
  cases h : frame_type j with
  | none => simp [Session.route_cli_message, h]
  | some t =>
    simp only [Session.route_cli_message, h]
    repeat' split
    all_goals simp

theorem route_cli_hist (sid : String) (now : Nat) (s : Session) (j : Json) :
    (Session.route_cli_message sid now s j).1.message_history = s.message_history ∨
    ((Session.route_cli_message sid now s j).1.message_history = s.message_history ++ [j] ∧
      (frame_type j = some "assistant" ∨ frame_type j = some "result")) := by
  cases h : frame_type j with
  | none => left; simp [Session.route_cli_message, h]
  | some t =>
    simp only [Session.route_cli_message, h]
    repeat' split
    all_goals first
      | (left; rfl)
      | (right; exact ⟨rfl, by simp_all⟩)

theorem send_to_cli_fields (s : Session) (msg : String) :
    (send_to_cli s msg).1.message_history = s.message_history ∧
    (send_to_cli s msg).1.cli_tx = s.cli_tx ∧
    (send_to_cli s msg).1.client_senders = s.client_senders ∧
    (send_to_cli s msg).1.state = s.state ∧
    (s.cli_tx.isSome = true →
      (send_to_cli s msg).1.pending_messages = s.pending_messages) := by
  cases hc : s.cli_tx <;> simp [send_to_cli, hc]

theorem route_client_fields (fresh : String) (s : Session) (j : Json) :
    (Session.route_client_message fresh s j).1.message_history = s.message_history ∧
    (Session.route_client_message fresh s j).1.cli_tx = s.cli_tx ∧
    (Session.route_client_message fresh s j).1.client_senders = s.client_senders ∧
    (s.cli_tx.isSome = true →
      (Session.route_client_message fresh s j).1.pending_messages = s.pending_messages) := by
  cases h : frame_type j with
  | none => simp [Session.route_client_message, h]
  | some t =>
    simp only [Session.route_client_message, h]
    cases hc : s.cli_tx with
    | none =>
      repeat' split
      all_goals simp [send_to_cli, hc]
    | some c =>
      repeat' split
      all_goals simp [send_to_cli, hc]

/- ### Claim C4 — pending upstream queue -/

/-- The C4 state invariant: the pending upstream queue is empty whenever the
upstream channel is installed. -/
def upstream_queue_inv (s : Session) : Prop :=
  s.cli_tx.isSome = true → s.pending_messages = []

theorem upstream_queue_inv_applyOp (s : Session) (op : BridgeOp)
    (h : upstream_queue_inv s) : upstream_queue_inv (applyOp s op) := by
  cases op with
  | reg_cli chan => intro _; simp [applyOp, Session.register_cli]
  | unreg_cli => intro hc; simp [applyOp, Session.unregister_cli] at hc
  | reg_client chan =>
    intro hc
    simp [applyOp, Session.register_client] at hc ⊢
    exact h hc
  | unreg_client chan =>
    intro hc
    simp [applyOp, Session.unregister_client] at hc ⊢
    exact h hc
  | from_cli sid now j =>
    intro hc
    have hf := route_cli_upstream_fields sid now s j
    rw [applyOp, hf.2.1]
    exact h (by rw [applyOp, hf.1] at hc; exact hc)
  | from_client fresh j =>
    intro hc
    have hf := route_client_fields fresh s j
    have hc2 : s.cli_tx.isSome = true := by rw [applyOp, hf.2.1] at hc; exact hc
    rw [applyOp, hf.2.2.2 hc2]
    exact h hc2

theorem upstream_queue_inv_runOps (s : Session) (ops : List BridgeOp)
    (h : upstream_queue_inv s) : upstream_queue_inv (runOps s ops) := by
  induction ops generalizing s with
  | nil => exact h
  | cons op rest ih => exact ih _ (upstream_queue_inv_applyOp s op h)

/-- Claim C4: `register_cli` flushes every queued pending message to the
newly installed upstream channel in arrival order and empties the queue; and
in every state reachable by bridge operations from a fresh session,
`pending_messages` is empty whenever `cli_tx` is `Some` (because
`send_to_cli` only queues a frame when `cli_tx` is `None`). -/
theorem claim4_theorem :
    (∀ (s : Session) (chan : Nat),
      (Session.register_cli s chan).2 = s.pending_messages.map Effect.cli ∧
      (Session.register_cli s chan).1 =
        { s with cli_tx := some chan, pending_messages := [] }) ∧
    (∀ (sid : String) (ops : List BridgeOp),
      (runOps (Session.new sid) ops).cli_tx.isSome = true →
      (runOps (Session.new sid) ops).pending_messages = []) := by
  refine ⟨fun s chan => ⟨rfl, rfl⟩, fun sid ops => ?_⟩
  exact upstream_queue_inv_runOps (Session.new sid) ops (by intro hc; rfl)

/-- A subscriber `user_message` frame used by concrete witnesses. -/
def claim4_user_frame : Json := Json.obj [("type", Json.str "user_message"),
  ("content", Json.str "hello")]

/-- Witness instantiating `claim4_theorem`: flushing a session with two
queued messages, and a reachable state with an installed upstream channel. -/
theorem claim4_witness :
    (Session.register_cli { Session.new "s" with pending_messages := ["a", "b"] } 5).2 =
      [Effect.cli "a", Effect.cli "b"] ∧
    (runOps (Session.new "s") [.from_client "f" claim4_user_frame, .reg_cli 5]).cli_tx.isSome
      = true ∧
    (runOps (Session.new "s") [.from_client "f" claim4_user_frame, .reg_cli 5]).pending_messages
      = [] := by
  refine ⟨(claim4_theorem.1 { Session.new "s" with pending_messages := ["a", "b"] } 5).1, rfl, ?_⟩
  exact claim4_theorem.2 "s" [.from_client "f" claim4_user_frame, .reg_cli 5] rfl

/- ### Claim C3 — history contents -/

theorem history_inv_runRoutes (steps : List RouteStep) (s : Session)
    (h : ∀ j ∈ s.message_history,
      frame_type j = some "assistant" ∨ frame_type j = some "result") :
    ∀ j ∈ (runRoutes s steps).message_history,
      frame_type j = some "assistant" ∨ frame_type j = some "result" := by
  induction steps generalizing s with
  | nil => exact h
  | cons step rest ih =>
    refine ih _ ?_
    cases step with
    | fromCli sid now jm =>
      intro j hj
      simp only [runRoutes] at hj ⊢
      rcases route_cli_hist sid now s jm with hh | ⟨hh, hty⟩
      · exact h j (by rwa [hh] at hj)
      · rw [hh] at hj
        rcases List.mem_append.1 hj with hj1 | hj1
        · exact h j hj1
        · rw [List.mem_singleton.1 hj1]
          exact hty
    | fromClient fresh jm =>
      intro j hj
      simp only [runRoutes] at hj ⊢
      rw [(route_client_fields fresh s jm).1] at hj
      exact h j hj

/-- Claim C3: starting from an empty session, after any sequence of
`route_cli_message` and `route_client_message` calls every element of
`message_history` has `type` equal to `"assistant"` or `"result"`; in
particular no frame of type `stream_event`, `system`, `control_request`,
`tool_progress`, `tool_use_summary` or `keep_alive` is ever appended. -/
theorem claim3_theorem (sid : String) (steps : List RouteStep) (j : Json)
    (hmem : j ∈ (runRoutes (Session.new sid) steps).message_history) :
    (frame_type j = some "assistant" ∨ frame_type j = some "result") ∧
    frame_type j ≠ some "stream_event" ∧ frame_type j ≠ some "system" ∧
    frame_type j ≠ some "control_request" ∧ frame_type j ≠ some "tool_progress" ∧
    frame_type j ≠ some "tool_use_summary" ∧ frame_type j ≠ some "keep_alive" := by
  have hp := history_inv_runRoutes steps (Session.new sid) (by intro j hj; cases hj) j hmem
  refine ⟨hp, ?_⟩
  rcases hp with hp | hp <;> rw [hp] <;> refine ⟨?_, ?_, ?_, ?_, ?_, ?_⟩ <;> decide

/-- A routing scenario: a `stream_event`, an `assistant` frame, a `result`
frame and a subscriber `user_message`. -/
def claim3_steps : List RouteStep :=
  [.fromCli "s" 1 (Json.obj [("type", Json.str "stream_event")]),
   .fromCli "s" 2 (Json.obj [("type", Json.str "assistant")]),
   .fromCli "s" 3 (Json.obj [("type", Json.str "result"), ("num_turns", Json.num 1)]),
   .fromClient "f" (Json.obj [("type", Json.str "user_message")])]

/-- Witness instantiating `claim3_theorem`: after `claim3_steps` the history
holds exactly the `assistant` and `result` frames; the theorem applies to the
`assistant` element. -/
theorem claim3_witness :
    (runRoutes (Session.new "s") claim3_steps).message_history =
      [Json.obj [("type", Json.str "assistant")],
       Json.obj [("type", Json.str "result"), ("num_turns", Json.num 1)]] ∧
    (frame_type (Json.obj [("type", Json.str "assistant")]) = some "assistant" ∨
      frame_type (Json.obj [("type", Json.str "assistant")]) = some "result") := by
  refine ⟨by decide, ?_⟩
  have h := claim3_theorem "s" claim3_steps (Json.obj [("type", Json.str "assistant")])
    (by decide)
  exact h.1

/- ### Claim C5 — subscriber attach replay -/

/-- Claim C5: attaching a subscriber to an existing session registers its
channel and yields exactly the session's state, history and pending
permission snapshots; the frames written to the subscriber before any live
frame are exactly one `session_init` frame carrying the session id and state
snapshot, then every history frame in order, then one `permission_request`
frame per outstanding pending permission — nothing else is synthesized. -/
theorem claim5_theorem (b : Bridge) (sid : String) (chan : Nat) (s : Session)
    (h : lookupAL b sid = some s) :
    (WsBridge.register_client b sid chan).2 =
      some (s.state, s.message_history, s.pending_permissions.map (·.2)) ∧
    lookupAL (WsBridge.register_client b sid chan).1 sid =
      some { s with client_senders := s.client_senders ++ [chan] } ∧
    client_attach_frames sid s.state s.message_history
        (s.pending_permissions.map (·.2)) =
      to_ndjson (session_init_frame sid s.state)
        :: (s.message_history.map to_ndjson
          ++ (s.pending_permissions.map (·.2)).map
              fun perm => to_ndjson (pending_perm_frame perm)) := by
  refine ⟨?_, ?_, rfl⟩
  · simp [WsBridge.register_client, h, Session.register_client]
  · simp [WsBridge.register_client, h, lookupAL_updateAL, Session.register_client]

/-- Witness instantiating `claim5_theorem` on `claim9_bridge`, whose session
`"a"` has history, a pending permission and an existing subscriber. -/
theorem claim5_witness :
    lookupAL claim9_bridge "a" = some claim9_session ∧
    (WsBridge.register_client claim9_bridge "a" 9).2 =
      some (claim9_session.state, claim9_session.message_history,
        claim9_session.pending_permissions.map (·.2)) ∧
    (lookupAL (WsBridge.register_client claim9_bridge "a" 9).1 "a").map
      Session.client_senders = some [2, 9] ∧
    client_attach_frames "a" claim9_session.state claim9_session.message_history
        (claim9_session.pending_permissions.map (·.2)) =
      to_ndjson (session_init_frame "a" claim9_session.state)
        :: (claim9_session.message_history.map to_ndjson
          ++ (claim9_session.pending_permissions.map (·.2)).map
              fun perm => to_ndjson (pending_perm_frame perm)) := by
  have r := claim5_theorem claim9_bridge "a" 9 claim9_session rfl
  exact ⟨rfl, r.1, by rw [r.2.1]; rfl, r.2.2⟩

/- ### Codec round trip: character lemmas -/

theorem char_eq_iff {c d : Char} : c = d ↔ c.toNat = d.toNat := by
  constructor
  · intro h; rw [h]
  · intro h; rw [← Char.ofNat_toNat c, ← Char.ofNat_toNat d, h]

theorem digitChar_isDigit {d : Nat} (h : d < 10) : (digitChar d).isDigit = true := by
  interval_cases d <;> decide

theorem charDigit_digitChar {d : Nat} (h : d < 10) : charDigit (digitChar d) = d := by
  interval_cases d <;> decide

theorem digitChar_ne_zero {d : Nat} (h : d < 10) (hd : d ≠ 0) : digitChar d ≠ '0' := by
  interval_cases d <;> simp_all <;> decide

theorem hexVal_hexDigitChar {d : Nat} (h : d < 16) : hexVal (hexDigitChar d) = some d := by
  interval_cases d <;> decide

theorem isDigit_toNat {c : Char} (h : c.isDigit = true) :
    48 ≤ c.toNat ∧ c.toNat ≤ 57 := by
  simpa [Char.isDigit] using h

theorem isDigit_not_trimWs {c : Char} (h : c.isDigit = true) : isTrimWs c = false := by
  have := isDigit_toNat h
  simp [isTrimWs]
  omega

theorem trimWs_false_jsonWs {c : Char} (h : isTrimWs c = false) : isJsonWs c = false := by
  simp [isTrimWs] at h
  simp [isJsonWs]
  omega

/- ### Codec round trip: decimal numbers -/

theorem natToChars_digits (n : Nat) : ∀ c ∈ natToChars n, c.isDigit = true := by
  intro c hc
  unfold natToChars at hc
  split at hc
  · simp at hc
    rw [hc]; decide
  · rw [List.mem_reverse, List.mem_map] at hc
    obtain ⟨d, hd, rfl⟩ := hc
    exact digitChar_isDigit (Nat.digits_lt_base (by norm_num) hd)

theorem natToChars_ne_nil (n : Nat) : natToChars n ≠ [] := by
  unfold natToChars
  split
  · simp
  · simp [Nat.digits_ne_nil_iff_ne_zero, *]

theorem foldl_digitChars (ds : List Nat) (h : ∀ d ∈ ds, d < 10) : ∀ a : Nat,
    ((ds.map digitChar).reverse).foldl (fun acc c => acc * 10 + charDigit c) a =
      a * 10 ^ ds.length + Nat.ofDigits 10 ds := by
  induction ds with
  | nil => intro a; simp [Nat.ofDigits]
  | cons d ds ih =>
    intro a
    rw [List.map_cons, List.reverse_cons, List.foldl_append,
      ih (fun x hx => h x (List.mem_cons_of_mem _ hx)) a]
    simp only [List.foldl_cons, List.foldl_nil, Nat.ofDigits_cons,
      charDigit_digitChar (h d (by simp)), List.length_cons]
    ring

theorem charsToNat_natToChars (n : Nat) : charsToNat (natToChars n) = n := by
  by_cases h : n = 0
  · subst h; decide
  · unfold charsToNat natToChars
    rw [if_neg h, foldl_digitChars _ (fun d hd => Nat.digits_lt_base (by norm_num) hd) 0]
    simp [Nat.ofDigits_digits]

theorem natToChars_head_ne_zero {n : Nat} (hn : n ≠ 0) {c : Char} {t : List Char}
    (h : natToChars n = c :: t) : c ≠ '0' := by
  unfold natToChars at h
  rw [if_neg hn] at h
  have hlast : ((Nat.digits 10 n).map digitChar).getLast? = some c := by
    rw [← List.head?_reverse, h]
    rfl
  have hne : Nat.digits 10 n ≠ [] := by
    simp [Nat.digits_ne_nil_iff_ne_zero, hn]
  have hmap : ((Nat.digits 10 n).map digitChar).getLast? =
      some (digitChar ((Nat.digits 10 n).getLast hne)) := by
    rw [List.getLast?_eq_getLast _ (by simpa using hne)]
    simp [List.getLast_map]
  rw [hmap] at hlast
  obtain rfl : digitChar ((Nat.digits 10 n).getLast hne) = c := by
    injection hlast
  exact digitChar_ne_zero
    (Nat.digits_lt_base (by norm_num) (List.getLast_mem hne))
    (Nat.getLast_digit_ne_zero 10 hn)

theorem takeWhile_append_all {p : Char → Bool} (l r : List Char)
    (h : ∀ c ∈ l, p c = true) : (l ++ r).takeWhile p = l ++ r.takeWhile p := by
  induction l with
  | nil => simp
  | cons a l ih =>
    simp [List.takeWhile_cons, h a (by simp),
      ih fun c hc => h c (List.mem_cons_of_mem _ hc)]

theorem dropWhile_append_all {p : Char → Bool} (l r : List Char)
    (h : ∀ c ∈ l, p c = true) : (l ++ r).dropWhile p = r.dropWhile p := by
  induction l with
  | nil => simp
  | cons a l ih =>
    simp [List.dropWhile_cons, h a (by simp),
      ih fun c hc => h c (List.mem_cons_of_mem _ hc)]

theorem boundary_number_facts (rest : List Char) (hb : boundary rest = true) :
    rest.takeWhile Char.isDigit = [] ∧ rest.dropWhile Char.isDigit = rest ∧
    ¬(rest.head? = some '.' ∨ rest.head? = some 'e' ∨ rest.head? = some 'E') := by
  cases rest with
  | nil => simp
  | cons c r =>
    simp only [boundary, Bool.or_eq_true, decide_eq_true_eq] at hb
    rcases hb with (rfl | rfl) | rfl <;>
      simp [List.takeWhile_cons, List.dropWhile_cons]

theorem parseNumber_print (i : Int) (rest : List Char) (hb : boundary rest = true) :
    parseNumber (intToChars i ++ rest) = some (.num i, rest) := by
  obtain ⟨hbt, hbd, hbe⟩ := boundary_number_facts rest hb
  by_cases hneg : i < 0
  · have hm : i.natAbs ≠ 0 := by omega
    have hshape : intToChars i ++ rest = '-' :: (natToChars i.natAbs ++ rest) := by
      simp [intToChars, hneg]
    rw [hshape]
    obtain ⟨c, t, hct⟩ : ∃ c t, natToChars i.natAbs = c :: t := by
      cases hnc : natToChars i.natAbs with
      | nil => exact absurd hnc (natToChars_ne_nil _)
      | cons c t => exact ⟨c, t, rfl⟩
    have hds : (natToChars i.natAbs ++ rest).takeWhile Char.isDigit =
        natToChars i.natAbs := by
      rw [takeWhile_append_all _ _ (natToChars_digits _), hbt, List.append_nil]
    have hdw : (natToChars i.natAbs ++ rest).dropWhile Char.isDigit = rest := by
      rw [dropWhile_append_all _ _ (natToChars_digits _), hbd]
    have hne : ¬(natToChars i.natAbs = []) := natToChars_ne_nil _
    have hlz : ¬((natToChars i.natAbs).head? = some '0' ∧
        1 < (natToChars i.natAbs).length) := by
      rintro ⟨hh, _⟩
      rw [hct] at hh
      exact natToChars_head_ne_zero hm hct (by injection hh)
    have hpos : ('-' :: (natToChars i.natAbs ++ rest)).head? = some '-' := rfl
    simp only [parseNumber, hpos, List.tail_cons, if_pos trivial, reduceIte,
      hds, hdw, if_neg hne, if_neg hlz, if_neg hbe]
    rw [charsToNat_natToChars]
    have habs : (↑i.natAbs : ℤ) = -i := by omega
    rw [habs, neg_neg]
  · have hshape : intToChars i ++ rest = natToChars i.toNat ++ rest := by
      simp [intToChars, hneg]
    rw [hshape]
    obtain ⟨c, t, hct⟩ : ∃ c t, natToChars i.toNat = c :: t := by
      cases hnc : natToChars i.toNat with
      | nil => exact absurd hnc (natToChars_ne_nil _)
      | cons c t => exact ⟨c, t, rfl⟩
    have hcd : c.isDigit = true := natToChars_digits _ c (by rw [hct]; simp)
    have hcm : ¬((natToChars i.toNat ++ rest).head? = some '-') := by
      rw [hct]
      simp only [List.cons_append, List.head?_cons, Option.some.injEq]
      intro h
      subst h
      exact absurd hcd (by decide)
    have hds : (natToChars i.toNat ++ rest).takeWhile Char.isDigit =
        natToChars i.toNat := by
      rw [takeWhile_append_all _ _ (natToChars_digits _), hbt, List.append_nil]
    have hdw : (natToChars i.toNat ++ rest).dropWhile Char.isDigit = rest := by
      rw [dropWhile_append_all _ _ (natToChars_digits _), hbd]
    have hne : ¬(natToChars i.toNat = []) := natToChars_ne_nil _
    have hlz : ¬((natToChars i.toNat).head? = some '0' ∧
        1 < (natToChars i.toNat).length) := by
      rintro ⟨hh, hl⟩
      by_cases hz : i.toNat = 0
      · rw [hz] at hl
        exact absurd hl (by decide)
      · rw [hct] at hh
        exact natToChars_head_ne_zero hz hct (by injection hh)
    simp only [parseNumber, if_neg hcm, hds, hdw, if_neg hne, if_neg hlz,
      if_neg hbe]
    rw [charsToNat_natToChars, Int.toNat_of_nonneg (by omega)]

/- ### Codec round trip: strings -/

theorem parseStringBody_escape : ∀ (cs : List Char) (fuel : Nat) (rest : List Char),
    cs.length + 1 ≤ fuel →
    parseStringBody fuel (escapeChars cs ++ '"' :: rest) = some (cs, rest) := by
  intro cs
  induction cs with
  | nil =>
    intro fuel rest hf
    obtain ⟨f, rfl⟩ : ∃ f, fuel = f + 1 := ⟨fuel - 1, by omega⟩
    rfl
  | cons c cs ih =>
    intro fuel rest hf
    obtain ⟨f, rfl⟩ : ∃ f, fuel = f + 1 := ⟨fuel - 1, by omega⟩
    have hfc : cs.length + 1 ≤ f := by
      simp at hf
      omega
    have hstep : escapeChars (c :: cs) ++ '"' :: rest =
        escapeChar c ++ (escapeChars cs ++ '"' :: rest) := by
      simp [escapeChars]
    rw [hstep]
    unfold escapeChar
    split_ifs with h1 h2 h3 h4 h5 h6 h7 h8
    · subst h1; simp [parseStringBody, escTable, ih _ _ hfc]
    · subst h2; simp [parseStringBody, escTable, ih _ _ hfc]
    · subst h3; simp [parseStringBody, escTable, ih _ _ hfc]
    · subst h4; simp [parseStringBody, escTable, ih _ _ hfc]
    · subst h5; simp [parseStringBody, escTable, ih _ _ hfc]
    · subst h6; simp [parseStringBody, escTable, ih _ _ hfc]
    · subst h7; simp [parseStringBody, escTable, ih _ _ hfc]
    · -- control character other than the short forms: `\u00xx`
      have hdiv : c.toNat / 16 < 16 := by omega
      have hmod : c.toNat % 16 < 16 := Nat.mod_lt _ (by norm_num)
      have hv0 : hexVal '0' = some 0 := by decide
      simp only [List.cons_append, List.nil_append, parseStringBody, reduceIte,
        hv0, hexVal_hexDigitChar hdiv, hexVal_hexDigitChar hmod]
      have hn : 0 * 4096 + 0 * 256 + c.toNat / 16 * 16 + c.toNat % 16 = c.toNat := by
        omega
      rw [hn]
      have hs1 : ¬(0xD800 ≤ c.toNat ∧ c.toNat < 0xDC00) := by omega
      have hs2 : ¬(0xDC00 ≤ c.toNat ∧ c.toNat < 0xE000) := by omega
      simp [hs1, hs2, ih _ _ hfc, Char.ofNat_toNat]
    · -- plain character, emitted verbatim
      have hc32 : ¬(c.toNat < 32) := h8
      simp [parseStringBody, h1, h2, hc32, ih _ _ hfc]

/- ### Codec round trip: printer output shape -/

theorem wfL_mem {xs : List Json} (h : Json.wfL xs = true) {x : Json} (hx : x ∈ xs) :
    Json.wf x = true := by
  induction xs with
  | nil => cases hx
  | cons y ys ih =>
    rw [Json.wfL, Bool.and_eq_true] at h
    rcases List.mem_cons.1 hx with rfl | hx
    · exact h.1
    · exact ih h.2 hx

theorem wfE_mem {es : List (String × Json)} (h : Json.wfE es = true)
    {e : String × Json} (he : e ∈ es) : Json.wf e.2 = true := by
  induction es with
  | nil => cases he
  | cons f fs ih =>
    rw [Json.wfE, Bool.and_eq_true] at h
    rcases List.mem_cons.1 he with rfl | he
    · exact h.1
    · exact ih h.2 he

theorem natToChars_getLast (n : Nat) :
    ∃ c, (natToChars n).getLast? = some c ∧ c.isDigit = true := by
  have hne : natToChars n ≠ [] := natToChars_ne_nil n
  exact ⟨(natToChars n).getLast hne, List.getLast?_eq_getLast _ hne,
    natToChars_digits n _ (List.getLast_mem hne)⟩

theorem printJson_shape (v : Json) :
    ∃ c t, printJson v = c :: t ∧ isTrimWs c = false ∧ c ≠ ']' ∧ c ≠ '}' := by
  cases v with
  | null => exact ⟨'n', _, rfl, by decide, by decide, by decide⟩
  | bool b =>
    cases b with
    | false => exact ⟨'f', _, rfl, by decide, by decide, by decide⟩
    | true => exact ⟨'t', _, rfl, by decide, by decide, by decide⟩
  | num i =>
    show ∃ c t, intToChars i = c :: t ∧ _
    unfold intToChars
    by_cases hneg : i < 0
    · exact ⟨'-', _, by rw [if_pos hneg], by decide, by decide, by decide⟩
    · rw [if_neg hneg]
      cases hnc : natToChars i.toNat with
      | nil => exact absurd hnc (natToChars_ne_nil _)
      | cons c t =>
        have hcd : c.isDigit = true := natToChars_digits _ c (by rw [hnc]; simp)
        have hb := isDigit_toNat hcd
        have h93 : (']' : Char).toNat = 93 := by decide
        have h125 : ('}' : Char).toNat = 125 := by decide
        refine ⟨c, t, rfl, isDigit_not_trimWs hcd, ?_, ?_⟩ <;>
          simp only [ne_eq, char_eq_iff] <;> omega
  | str s => exact ⟨'"', _, rfl, by decide, by decide, by decide⟩
  | arr xs =>
    cases xs with
    | nil => exact ⟨'[', _, rfl, by decide, by decide, by decide⟩
    | cons x xs => exact ⟨'[', _, rfl, by decide, by decide, by decide⟩
  | obj es =>
    cases es with
    | nil => exact ⟨'{', _, rfl, by decide, by decide, by decide⟩
    | cons e es => exact ⟨'{', _, rfl, by decide, by decide, by decide⟩

theorem printJson_getLast (v : Json) :
    ∃ c, (printJson v).getLast? = some c ∧ isTrimWs c = false := by
  cases v with
  | null => exact ⟨'l', by decide, by decide⟩
  | bool b =>
    cases b with
    | false => exact ⟨'e', by decide, by decide⟩
    | true => exact ⟨'e', by decide, by decide⟩
  | num i =>
    show ∃ c, (intToChars i).getLast? = some c ∧ _
    unfold intToChars
    by_cases hneg : i < 0
    · rw [if_pos hneg]
      obtain ⟨c, hc, hcd⟩ := natToChars_getLast i.natAbs
      refine ⟨c, ?_, isDigit_not_trimWs hcd⟩
      cases hnc : natToChars i.natAbs with
      | nil => exact absurd hnc (natToChars_ne_nil _)
      | cons d t =>
        rw [hnc] at hc
        rw [List.getLast?_cons_cons, hc]
    · rw [if_neg hneg]
      obtain ⟨c, hc, hcd⟩ := natToChars_getLast i.toNat
      exact ⟨c, hc, isDigit_not_trimWs hcd⟩
  | str s =>
    refine ⟨'"', ?_, by decide⟩
    show (('"' :: escapeChars s.data) ++ ['"']).getLast? = some '"'
    exact List.getLast?_concat _
  | arr xs =>
    cases xs with
    | nil => exact ⟨']', by decide, by decide⟩
    | cons x xs =>
      refine ⟨']', ?_, by decide⟩
      show (('[' :: (printJson x ++ printElems xs)) ++ [']']).getLast? = some ']'
      exact List.getLast?_concat _
  | obj es =>
    cases es with
    | nil => exact ⟨'}', by decide, by decide⟩
    | cons e es =>
      refine ⟨'}', ?_, by decide⟩
      show (('{' :: (printEntry e ++ printMembers es)) ++ ['}']).getLast? = some '}'
      exact List.getLast?_concat _

/- ### Codec round trip: the printer emits no raw newline -/

theorem hexDigitChar_ne_nl {d : Nat} (h : d < 16) : hexDigitChar d ≠ '\n' := by
  interval_cases d <;> decide

theorem escapeChar_no_nl (c : Char) : ∀ d ∈ escapeChar c, d ≠ '\n' := by
  intro d hd
  unfold escapeChar at hd
  split_ifs at hd with h1 h2 h3 h4 h5 h6 h7 h8
  · fin_cases hd <;> decide
  · fin_cases hd <;> decide
  · fin_cases hd <;> decide
  · fin_cases hd <;> decide
  · fin_cases hd <;> decide
  · fin_cases hd <;> decide
  · fin_cases hd <;> decide
  · fin_cases hd
    · decide
    · decide
    · decide
    · decide
    · exact hexDigitChar_ne_nl (by omega)
    · exact hexDigitChar_ne_nl (Nat.mod_lt _ (by norm_num))
  · fin_cases hd
    exact h5

theorem printStr_no_nl (s : String) : ∀ d ∈ printStr s, d ≠ '\n' := by
  intro d hd
  rcases List.mem_cons.1 hd with rfl | hd
  · decide
  · rcases List.mem_append.1 hd with hd | hd
    · obtain ⟨c, _, hc⟩ := List.mem_flatMap.1 hd
      exact escapeChar_no_nl c d hc
    · rw [List.mem_singleton.1 hd]; decide

theorem intToChars_no_nl (i : Int) : ∀ d ∈ intToChars i, d ≠ '\n' := by
  intro d hd
  have hdig : ∀ e ∈ natToChars (if i < 0 then i.natAbs else i.toNat), e ≠ '\n' := by
    intro e he
    have := isDigit_toNat (natToChars_digits _ e he)
    simp only [ne_eq, char_eq_iff]
    have h10 : ('\n' : Char).toNat = 10 := by decide
    omega
  unfold intToChars at hd
  by_cases hneg : i < 0
  · rw [if_pos hneg] at hd
    rcases List.mem_cons.1 hd with rfl | hd
    · decide
    · exact hdig d (by rw [if_pos hneg]; exact hd)
  · rw [if_neg hneg] at hd
    exact hdig d (by rw [if_neg hneg]; exact hd)

theorem printElems_no_nl (xs : List Json)
    (ih : ∀ x ∈ xs, ∀ d ∈ printJson x, d ≠ '\n') :
    ∀ d ∈ printElems xs, d ≠ '\n' := by
  induction xs with
  | nil => intro d hd; cases hd
  | cons x xs ihl =>
    intro d hd
    rw [printElems] at hd
    rcases List.mem_cons.1 hd with rfl | hd
    · decide
    · rcases List.mem_append.1 hd with hd | hd
      · exact ih x (by simp) d hd
      · exact ihl (fun y hy => ih y (List.mem_cons_of_mem _ hy)) d hd

theorem printMembers_no_nl (es : List (String × Json))
    (ih : ∀ e ∈ es, ∀ d ∈ printJson e.2, d ≠ '\n') :
    ∀ d ∈ printMembers es, d ≠ '\n' := by
  induction es with
  | nil => intro d hd; cases hd
  | cons e es ihl =>
    intro d hd
    rw [printMembers] at hd
    rcases List.mem_cons.1 hd with rfl | hd
    · decide
    · rcases List.mem_append.1 hd with hd | hd
      · rw [printEntry] at hd
        rcases List.mem_append.1 hd with hd | hd
        · exact printStr_no_nl e.1 d hd
        · rcases List.mem_cons.1 hd with rfl | hd
          · decide
          · exact ih e (by simp) d hd
      · exact ihl (fun f hf => ih f (List.mem_cons_of_mem _ hf)) d hd

theorem printJson_no_nl_aux : ∀ (n : Nat) (v : Json), sizeOf v ≤ n →
    ∀ d ∈ printJson v, d ≠ '\n' := by
  intro n
  induction n with
  | zero =>
    intro v hv
    exact absurd hv (by cases v <;> simp)
  | succ n ih =>
    intro v hv d hd
    cases v with
    | null =>
      rw [printJson] at hd
      fin_cases hd <;> decide
    | bool b =>
      cases b <;> rw [printJson] at hd <;> fin_cases hd <;> decide
    | num i => exact intToChars_no_nl i d hd
    | str s => exact printStr_no_nl s d hd
    | arr xs =>
      have ihx : ∀ x ∈ xs, ∀ e ∈ printJson x, e ≠ '\n' := fun x hx =>
        ih x (by have := Json.sizeOf_lt_of_mem_elems hx; omega)
      cases xs with
      | nil => rw [printJson] at hd; fin_cases hd <;> decide
      | cons x xs =>
        rw [printJson] at hd
        rcases List.mem_cons.1 hd with rfl | hd
        · decide
        · rcases List.mem_append.1 hd with hd | hd
          · rcases List.mem_append.1 hd with hd | hd
            · exact ihx x (by simp) d hd
            · exact printElems_no_nl xs
                (fun y hy => ihx y (List.mem_cons_of_mem _ hy)) d hd
          · rw [List.mem_singleton.1 hd]; decide
    | obj es =>
      have ihe : ∀ e ∈ es, ∀ d2 ∈ printJson e.2, d2 ≠ '\n' := fun e he =>
        ih e.2 (by have := Json.sizeOf_lt_of_mem_entries he; omega)
      cases es with
      | nil => rw [printJson] at hd; fin_cases hd <;> decide
      | cons e es =>
        rw [printJson] at hd
        rcases List.mem_cons.1 hd with rfl | hd
        · decide
        · rcases List.mem_append.1 hd with hd | hd
          · rcases List.mem_append.1 hd with hd | hd
            · rw [printEntry] at hd
              rcases List.mem_append.1 hd with hd | hd
              · exact printStr_no_nl e.1 d hd
              · rcases List.mem_cons.1 hd with rfl | hd
                · decide
                · exact ihe e (by simp) d hd
            · exact printMembers_no_nl es
                (fun f hf => ihe f (List.mem_cons_of_mem _ hf)) d hd
          · rw [List.mem_singleton.1 hd]; decide

theorem printJson_no_nl (v : Json) : ∀ d ∈ printJson v, d ≠ '\n' :=
  printJson_no_nl_aux (sizeOf v) v le_rfl

/- ### Codec round trip: the printed length bounds the parse fuel -/

theorem intToChars_length_pos (i : Int) : 1 ≤ (intToChars i).length := by
  unfold intToChars
  by_cases hneg : i < 0
  · rw [if_pos hneg]; simp
  · rw [if_neg hneg]
    cases hnc : natToChars i.toNat with
    | nil => exact absurd hnc (natToChars_ne_nil _)
    | cons c t => simp

theorem jsizeL_le_length (xs : List Json)
    (ih : ∀ x ∈ xs, jsize x ≤ (printJson x).length) :
    jsizeL xs ≤ (printElems xs).length := by
  induction xs with
  | nil => simp [jsizeL, printElems]
  | cons x xs ihl =>
    rw [jsizeL, printElems]
    have h1 := ih x (by simp)
    have h2 := ihl fun y hy => ih y (List.mem_cons_of_mem _ hy)
    simp only [List.length_cons, List.length_append]
    omega

theorem jsizeM_le_length (es : List (String × Json))
    (ih : ∀ e ∈ es, jsize e.2 ≤ (printJson e.2).length) :
    jsizeM es ≤ (printMembers es).length := by
  induction es with
  | nil => simp [jsizeM, printMembers]
  | cons e es ihl =>
    rw [jsizeM, printMembers]
    have h2 := ihl fun f hf => ih f (List.mem_cons_of_mem _ hf)
    obtain ⟨k, v⟩ := e
    have h1 : jsize v ≤ (printJson v).length := ih (k, v) (by simp)
    simp only [printEntry, List.length_cons, List.length_append]
    omega

theorem jsize_le_length_aux : ∀ (n : Nat) (v : Json), sizeOf v ≤ n →
    jsize v ≤ (printJson v).length := by
  intro n
  induction n with
  | zero =>
    intro v hv
    exact absurd hv (by cases v <;> simp)
  | succ n ih =>
    intro v hv
    cases v with
    | null => decide
    | bool b => cases b <;> decide
    | num i => exact intToChars_length_pos i
    | str s => simp [jsize, printJson, printStr]
    | arr xs =>
      have ihx : ∀ x ∈ xs, jsize x ≤ (printJson x).length := fun x hx =>
        ih x (by have := Json.sizeOf_lt_of_mem_elems hx; omega)
      cases xs with
      | nil => decide
      | cons x xs =>
        have h1 := ihx x (by simp)
        have h2 := jsizeL_le_length xs fun y hy => ihx y (List.mem_cons_of_mem _ hy)
        simp only [jsize, jsizeL, printJson, List.length_cons, List.length_append,
          List.length_singleton]
        omega
    | obj es =>
      have ihe : ∀ e ∈ es, jsize e.2 ≤ (printJson e.2).length := fun e he =>
        ih e.2 (by have := Json.sizeOf_lt_of_mem_entries he; omega)
      cases es with
      | nil => decide
      | cons e es =>
        have h2 := jsizeM_le_length es fun f hf => ihe f (List.mem_cons_of_mem _ hf)
        obtain ⟨k, v⟩ := e
        have h1 : jsize v ≤ (printJson v).length := ihe (k, v) (by simp)
        simp only [jsize, jsizeM, printJson, printEntry, List.length_cons,
          List.length_append, List.length_singleton]
        omega

theorem jsize_le_length (v : Json) : jsize v ≤ (printJson v).length :=
  jsize_le_length_aux (sizeOf v) v le_rfl

/- ### Codec round trip: parser inversion -/

/-- Round trip at the value level: parsing the printed form of `v` (with
enough fuel, before any legal continuation) yields `v` and the continuation. -/
def RTv (v : Json) : Prop :=
  ∀ (fuel : Nat) (rest : List Char), jsize v ≤ fuel → boundary rest = true →
    parseValue fuel (printJson v ++ rest) = some (v, rest)

theorem skipWs_cons_false {c : Char} (h : isJsonWs c = false) (l : List Char) :
    skipWs (c :: l) = c :: l := by
  simp [skipWs, List.dropWhile_cons, h]

theorem isJsonWs_comma : isJsonWs ',' = false := by decide

theorem isJsonWs_rbracket : isJsonWs ']' = false := by decide

theorem isJsonWs_rbrace : isJsonWs '}' = false := by decide

theorem isJsonWs_colon : isJsonWs ':' = false := by decide

theorem skipWs_printed (v : Json) (rest : List Char) :
    skipWs (printJson v ++ rest) = printJson v ++ rest := by
  obtain ⟨c, t, hct, htw, _, _⟩ := printJson_shape v
  rw [hct]
  simp [skipWs, List.dropWhile_cons, trimWs_false_jsonWs htw]

theorem escapeChar_length_pos (c : Char) : 1 ≤ (escapeChar c).length := by
  unfold escapeChar
  split_ifs <;> simp

theorem escapeChars_length_ge (cs : List Char) : cs.length ≤ (escapeChars cs).length := by
  induction cs with
  | nil => simp [escapeChars]
  | cons c cs ih =>
    have h := escapeChar_length_pos c
    simp only [escapeChars, List.flatMap_cons, List.length_append, List.length_cons]
    simp only [escapeChars] at ih
    omega

theorem insertEntry_append_of_not_mem (acc : List (String × Json)) (k : String)
    (v : Json) (h : ∀ e ∈ acc, e.1 ≠ k) : insertEntry acc k v = acc ++ [(k, v)] := by
  induction acc with
  | nil => rfl
  | cons e acc ih =>
    obtain ⟨k1, v1⟩ := e
    have h1 : k1 ≠ k := h (k1, v1) (by simp)
    simp only [insertEntry, if_neg h1, List.cons_append]
    rw [ih fun f hf => h f (List.mem_cons_of_mem _ hf)]

theorem keysND_cons {e : String × Json} {es : List (String × Json)}
    (h : keysND (e :: es) = true) : (∀ f ∈ es, f.1 ≠ e.1) ∧ keysND es = true := by
  rw [keysND, Bool.and_eq_true, List.all_eq_true] at h
  exact ⟨fun f hf => by simpa using h.1 f hf, h.2⟩

theorem parseElems_rt : ∀ (xs : List Json) (x : Json) (acc : List Json)
    (fuel : Nat) (rest : List Char),
    RTv x → (∀ y ∈ xs, RTv y) →
    1 + jsize x + jsizeL xs ≤ fuel → boundary rest = true →
    parseElems fuel acc (printJson x ++ printElems xs ++ ']' :: rest) =
      some (.arr (acc ++ x :: xs), rest) := by
  intro xs
  induction xs with
  | nil =>
    intro x acc fuel rest hx _ hf hb
    obtain ⟨f, rfl⟩ : ∃ f, fuel = f + 1 := ⟨fuel - 1, by omega⟩
    have hin : printJson x ++ printElems [] ++ ']' :: rest =
        printJson x ++ ']' :: rest := by
      simp [printElems]
    rw [parseElems, hin, hx f (']' :: rest) (by simp [jsizeL] at hf; omega)
      (by simp [boundary])]
    dsimp only
    rw [skipWs_cons_false isJsonWs_rbracket]
    simp
  | cons y ys ih =>
    intro x acc fuel rest hx hy hf hb
    obtain ⟨f, rfl⟩ : ∃ f, fuel = f + 1 := ⟨fuel - 1, by omega⟩
    have hin : printJson x ++ printElems (y :: ys) ++ ']' :: rest =
        printJson x ++ ',' :: (printJson y ++ printElems ys ++ ']' :: rest) := by
      simp [printElems]
    rw [parseElems, hin, hx f (',' :: (printJson y ++ printElems ys ++ ']' :: rest))
      (by simp [jsizeL] at hf; omega) (by simp [boundary])]
    have hfy : 1 + jsize y + jsizeL ys ≤ f := by
      simp [jsizeL] at hf
      omega
    dsimp only
    rw [skipWs_cons_false isJsonWs_comma]
    simp only [List.head?_cons, Option.some.injEq, reduceIte, List.tail_cons]
    rw [ih y (acc ++ [x]) f rest (hy y (by simp))
      (fun z hz => hy z (List.mem_cons_of_mem _ hz)) hfy hb]
    simp

theorem isJsonWs_quote : isJsonWs '"' = false := by decide

theorem parseMembers_rt : ∀ (es : List (String × Json)) (k : String) (v : Json)
    (acc : List (String × Json)) (fuel : Nat) (rest : List Char),
    RTv v → (∀ e ∈ es, RTv e.2) →
    keysND ((k, v) :: es) = true →
    (∀ e ∈ acc, ∀ f2 ∈ (k, v) :: es, e.1 ≠ f2.1) →
    1 + jsize v + jsizeM es ≤ fuel → boundary rest = true →
    parseMembers fuel acc
        (printStr k ++ (':' :: (printJson v ++ (printMembers es ++ ('}' :: rest))))) =
      some (.obj (acc ++ (k, v) :: es), rest) := by
  intro es
  induction es with
  | nil =>
    intro k v acc fuel rest hv _ hkeys hdisj hf hb
    obtain ⟨f, rfl⟩ : ∃ f, fuel = f + 1 := ⟨fuel - 1, by omega⟩
    have hin : printStr k ++ (':' :: (printJson v ++ (printMembers [] ++ ('}' :: rest)))) =
        '"' :: (escapeChars k.data ++ '"' :: ':' :: (printJson v ++ '}' :: rest)) := by
      simp [printStr, printMembers]
    rw [parseMembers, hin, skipWs_cons_false isJsonWs_quote]
    dsimp only
    simp only [reduceIte]
    rw [parseStringBody_escape k.data _ (':' :: (printJson v ++ '}' :: rest)) (by
      have := escapeChars_length_ge k.data
      simp only [List.length_append, List.length_cons]
      omega)]
    dsimp only
    rw [skipWs_cons_false isJsonWs_colon]
    dsimp only
    simp only [reduceIte]
    rw [hv f ('}' :: rest) (by simp [jsizeM] at hf; omega) (by simp [boundary])]
    dsimp only
    rw [show String.mk k.data = k from rfl,
      insertEntry_append_of_not_mem acc k v (fun e he => hdisj e he (k, v) (by simp)),
      skipWs_cons_false isJsonWs_rbrace]
    simp
  | cons e2 es2 ih =>
    intro k v acc fuel rest hv hes hkeys hdisj hf hb
    obtain ⟨k2, v2⟩ := e2
    obtain ⟨f, rfl⟩ : ∃ f, fuel = f + 1 := ⟨fuel - 1, by omega⟩
    have hin : printStr k ++ (':' :: (printJson v ++
        (printMembers ((k2, v2) :: es2) ++ ('}' :: rest)))) =
        '"' :: (escapeChars k.data ++ '"' :: ':' :: (printJson v ++
          ',' :: (printStr k2 ++ (':' :: (printJson v2 ++
            (printMembers es2 ++ ('}' :: rest))))))) := by
      simp [printStr, printMembers, printEntry]
    rw [parseMembers, hin, skipWs_cons_false isJsonWs_quote]
    dsimp only
    simp only [reduceIte]
    rw [parseStringBody_escape k.data _ _ (by
      have := escapeChars_length_ge k.data
      simp only [List.length_append, List.length_cons]
      omega)]
    dsimp only
    rw [skipWs_cons_false isJsonWs_colon]
    dsimp only
    simp only [reduceIte]
    rw [hv f (',' :: (printStr k2 ++ (':' :: (printJson v2 ++
        (printMembers es2 ++ ('}' :: rest))))))
      (by simp [jsizeM] at hf; omega) (by simp [boundary])]
    dsimp only
    rw [show String.mk k.data = k from rfl,
      insertEntry_append_of_not_mem acc k v (fun e he => hdisj e he (k, v) (by simp)),
      skipWs_cons_false isJsonWs_comma]
    simp only [List.head?_cons, Option.some.injEq, reduceIte, List.tail_cons]
    have hkey2 := keysND_cons hkeys
    have hdisj2 : ∀ e ∈ acc ++ [(k, v)], ∀ f2 ∈ (k2, v2) :: es2, e.1 ≠ f2.1 := by
      intro e he f2 hf2
      rcases List.mem_append.1 he with he | he
      · exact hdisj e he f2 (List.mem_cons_of_mem _ hf2)
      · rw [List.mem_singleton.1 he]
        exact (hkey2.1 f2 hf2).symm
    rw [ih k2 v2 (acc ++ [(k, v)]) f rest (hes (k2, v2) (by simp))
      (fun e he => hes e (List.mem_cons_of_mem _ he)) hkey2.2 hdisj2
      (by simp [jsizeM] at hf; omega) hb]
    simp

theorem jsize_pos (v : Json) : 1 ≤ jsize v := by
  cases v <;> simp [jsize]

theorem num_head_ne {c : Char} (h : c = '-' ∨ c.isDigit = true) :
    ¬(c = 'n') ∧ ¬(c = 't') ∧ ¬(c = 'f') ∧ ¬(c = '"') ∧ ¬(c = '[') ∧ ¬(c = '{') := by
  rcases h with rfl | h
  · exact ⟨by decide, by decide, by decide, by decide, by decide, by decide⟩
  · have hb := isDigit_toNat h
    have e1 : ('n' : Char).toNat = 110 := by decide
    have e2 : ('t' : Char).toNat = 116 := by decide
    have e3 : ('f' : Char).toNat = 102 := by decide
    have e4 : ('"' : Char).toNat = 34 := by decide
    have e5 : ('[' : Char).toNat = 91 := by decide
    have e6 : ('{' : Char).toNat = 123 := by decide
    refine ⟨?_, ?_, ?_, ?_, ?_, ?_⟩ <;> (rw [char_eq_iff]; omega)

theorem parseValue_to_number {c : Char} (h : c = '-' ∨ c.isDigit = true)
    (f : Nat) (t : List Char) :
    parseValue (f + 1) (c :: t) = parseNumber (c :: t) := by
  have hws : isJsonWs c = false := by
    rcases h with rfl | h
    · decide
    · exact trimWs_false_jsonWs (isDigit_not_trimWs h)
  obtain ⟨h1, h2, h3, h4, h5, h6⟩ := num_head_ne h
  rw [parseValue, skipWs_cons_false hws]
  dsimp only
  simp only [if_neg h1, if_neg h2, if_neg h3, if_neg h4, if_neg h5, if_neg h6]

theorem parse_print_aux : ∀ (n : Nat) (v : Json), sizeOf v ≤ n →
    Json.wf v = true → RTv v := by
  intro n
  induction n with
  | zero =>
    intro v hv
    exact absurd hv (by cases v <;> simp)
  | succ n ih =>
    intro v hv hwf fuel rest hf hb
    obtain ⟨f, rfl⟩ : ∃ f, fuel = f + 1 :=
      ⟨fuel - 1, by have := jsize_pos v; omega⟩
    cases v with
    | null =>
      rw [show printJson .null ++ rest = 'n' :: ('u' :: 'l' :: 'l' :: rest) from rfl,
        parseValue, skipWs_cons_false (by decide)]
      dsimp only
      simp [dropLit]
    | bool b =>
      cases b with
      | true =>
        rw [show printJson (.bool true) ++ rest =
          't' :: ('r' :: 'u' :: 'e' :: rest) from rfl,
          parseValue, skipWs_cons_false (by decide)]
        dsimp only
        simp [dropLit]
      | false =>
        rw [show printJson (.bool false) ++ rest =
          'f' :: ('a' :: 'l' :: 's' :: 'e' :: rest) from rfl,
          parseValue, skipWs_cons_false (by decide)]
        dsimp only
        simp [dropLit]
    | num i =>
      have hhead : ∃ c t, intToChars i = c :: t ∧ (c = '-' ∨ c.isDigit = true) := by
        unfold intToChars
        by_cases hneg : i < 0
        · exact ⟨'-', _, by rw [if_pos hneg], Or.inl rfl⟩
        · rw [if_neg hneg]
          cases hnc : natToChars i.toNat with
          | nil => exact absurd hnc (natToChars_ne_nil _)
          | cons c t =>
            exact ⟨c, t, rfl, Or.inr (natToChars_digits _ c (by rw [hnc]; simp))⟩
      obtain ⟨c, t, hct, hcd⟩ := hhead
      have hin : printJson (.num i) ++ rest = c :: (t ++ rest) := by
        show intToChars i ++ rest = _
        rw [hct]
        simp
      rw [hin, parseValue_to_number hcd]
      rw [← List.cons_append, ← hct]
      exact parseNumber_print i rest hb
    | str s =>
      have hin : printJson (.str s) ++ rest =
          '"' :: (escapeChars s.data ++ '"' :: rest) := by
        simp [printJson, printStr]
      rw [hin, parseValue, skipWs_cons_false (by decide)]
      dsimp only
      simp only [reduceIte]
      rw [parseStringBody_escape s.data _ rest (by
        have := escapeChars_length_ge s.data
        simp only [List.length_append, List.length_cons]
        omega)]
      rfl
    | arr xs =>
      cases xs with
      | nil =>
        rw [show printJson (.arr []) ++ rest = '[' :: (']' :: rest) from rfl,
          parseValue, skipWs_cons_false (by decide)]
        dsimp only
        simp only [reduceIte]
        rw [skipWs_cons_false isJsonWs_rbracket]
        simp
      | cons x xs =>
        have hwfl : Json.wfL (x :: xs) = true := by
          simpa [Json.wf] using hwf
        have hin : printJson (.arr (x :: xs)) ++ rest =
            '[' :: (printJson x ++ printElems xs ++ ']' :: rest) := by
          simp [printJson]
        rw [hin, parseValue, skipWs_cons_false (by decide)]
        dsimp only
        simp only [reduceIte]
        have hsw : skipWs (printJson x ++ printElems xs ++ ']' :: rest) =
            printJson x ++ printElems xs ++ ']' :: rest := by
          have h1 := skipWs_printed x (printElems xs ++ ']' :: rest)
          simpa [List.append_assoc] using h1
        rw [hsw]
        obtain ⟨c, t, hct, _, hc1, _⟩ := printJson_shape x
        have hhd : ¬((printJson x ++ printElems xs ++ ']' :: rest).head? = some ']') := by
          rw [hct]
          simp [hc1]
        rw [if_neg hhd]
        have hRTx : RTv x :=
          ih x (by have := Json.sizeOf_lt_of_mem_elems (List.mem_cons_self x xs); omega)
            (wfL_mem hwfl (by simp))
        have hRTxs : ∀ y ∈ xs, RTv y := fun y hy =>
          ih y (by have := Json.sizeOf_lt_of_mem_elems (List.mem_cons_of_mem x hy); omega)
            (wfL_mem hwfl (List.mem_cons_of_mem _ hy))
        have hfl : 1 + jsize x + jsizeL xs ≤ f := by
          simp [jsize, jsizeL] at hf
          omega
        rw [parseElems_rt xs x [] f rest hRTx hRTxs hfl hb]
        simp
    | obj es =>
      cases es with
      | nil =>
        rw [show printJson (.obj []) ++ rest = '{' :: ('}' :: rest) from rfl,
          parseValue, skipWs_cons_false (by decide)]
        dsimp only
        simp only [reduceIte]
        rw [skipWs_cons_false isJsonWs_rbrace]
        simp
      | cons e es2 =>
        obtain ⟨k, v⟩ := e
        have hknd : keysND ((k, v) :: es2) = true := by
          rw [Json.wf, Bool.and_eq_true] at hwf
          exact hwf.1
        have hwfe : Json.wfE ((k, v) :: es2) = true := by
          rw [Json.wf, Bool.and_eq_true] at hwf
          exact hwf.2
        have hin : printJson (.obj ((k, v) :: es2)) ++ rest =
            '{' :: (printStr k ++ (':' :: (printJson v ++
              (printMembers es2 ++ ('}' :: rest))))) := by
          simp [printJson, printEntry]
        rw [hin, parseValue, skipWs_cons_false (by decide)]
        dsimp only
        simp only [reduceIte]
        have hsw : skipWs (printStr k ++ (':' :: (printJson v ++
            (printMembers es2 ++ ('}' :: rest))))) =
            printStr k ++ (':' :: (printJson v ++ (printMembers es2 ++ ('}' :: rest)))) := by
          rw [show printStr k ++ (':' :: (printJson v ++ (printMembers es2 ++ ('}' :: rest)))) =
            '"' :: (escapeChars k.data ++ '"' :: ':' :: (printJson v ++
              (printMembers es2 ++ ('}' :: rest)))) from by simp [printStr]]
          exact skipWs_cons_false isJsonWs_quote _
        rw [hsw]
        have hhd : ¬((printStr k ++ (':' :: (printJson v ++
            (printMembers es2 ++ ('}' :: rest))))).head? = some '}') := by
          simp [printStr]
        rw [if_neg hhd]
        have hRTv2 : RTv v := by
          have hlt : sizeOf v < sizeOf (Json.obj ((k, v) :: es2)) := by
            have h0 := Json.sizeOf_lt_of_mem_entries (List.mem_cons_self (k, v) es2)
            simpa using h0
          have hw : Json.wf v = true := wfE_mem (e := (k, v)) hwfe (by simp)
          exact ih v (by omega) hw
        have hRTes : ∀ e ∈ es2, RTv e.2 := fun e he => by
          have hlt : sizeOf e.2 < sizeOf (Json.obj ((k, v) :: es2)) :=
            Json.sizeOf_lt_of_mem_entries (List.mem_cons_of_mem (k, v) he)
          exact ih e.2 (by omega) (wfE_mem hwfe (List.mem_cons_of_mem _ he))
        have hfm : 1 + jsize v + jsizeM es2 ≤ f := by
          simp [jsize, jsizeM] at hf
          omega
        rw [parseMembers_rt es2 k v [] f rest hRTv2 hRTes hknd
          (by intro e he; cases he) hfm hb]
        simp

theorem parse_print (v : Json) (hwf : Json.wf v = true) : RTv v :=
  parse_print_aux (sizeOf v) v le_rfl hwf

/- ### Codec round trip: the NDJSON layer -/

theorem splitNl_ne_nil (cs : List Char) : splitNl cs ≠ [] := by
  cases cs with
  | nil => simp [splitNl]
  | cons c cs =>
    rw [splitNl]
    split
    · simp
    · split <;> simp

theorem splitNl_append (p cs : List Char) (h : ∀ c ∈ p, c ≠ '\n') :
    splitNl (p ++ '\n' :: cs) = p :: splitNl cs := by
  induction p with
  | nil => simp [splitNl]
  | cons c p ih =>
    have hc : ¬(c = '\n') := h c (by simp)
    have ihp := ih fun d hd => h d (List.mem_cons_of_mem _ hd)
    rw [List.cons_append, splitNl, if_neg hc, ihp]

theorem dropWhile_eq_self_of_head {p : Char → Bool} {l : List Char}
    (h : ∀ c, l.head? = some c → p c = false) : l.dropWhile p = l := by
  cases l with
  | nil => rfl
  | cons a l => simp [List.dropWhile_cons, h a rfl]

theorem trimChars_printed (v : Json) : trimChars (printJson v) = printJson v := by
  unfold trimChars
  obtain ⟨c, t, hct, htw, _, _⟩ := printJson_shape v
  obtain ⟨d, hd, hdw⟩ := printJson_getLast v
  have h1 : (printJson v).dropWhile isTrimWs = printJson v :=
    dropWhile_eq_self_of_head fun e he => by
      rw [hct] at he
      simp at he
      rw [← he]
      exact htw
  rw [h1]
  have h2 : (printJson v).reverse.dropWhile isTrimWs = (printJson v).reverse :=
    dropWhile_eq_self_of_head fun e he => by
      rw [List.head?_reverse, hd] at he
      obtain rfl : d = e := by injection he
      exact hdw
  rw [h2, List.reverse_reverse]

theorem parseJson_print (v : Json) (hwf : Json.wf v = true) :
    parseJson (printJson v) = some v := by
  have hrt := parse_print v hwf ((printJson v).length + 1) []
    (le_trans (jsize_le_length v) (by omega)) rfl
  rw [List.append_nil] at hrt
  rw [parseJson, hrt]
  simp [skipWs]

theorem printJson_ne_nil (v : Json) : printJson v ≠ [] := by
  obtain ⟨c, t, hct, _, _, _⟩ := printJson_shape v
  rw [hct]
  simp

theorem parse_lines_encodeAll : ∀ vs : List Json, (∀ v ∈ vs, Json.wf v = true) →
    parse_lines (vs.flatMap fun v => printJson v ++ ['\n']) = vs := by
  intro vs
  induction vs with
  | nil => intro _; rfl
  | cons v vs ih =>
    intro h
    have hsh : (v :: vs).flatMap (fun v => printJson v ++ ['\n']) =
        printJson v ++ '\n' :: vs.flatMap (fun v => printJson v ++ ['\n']) := by
      simp [List.flatMap_cons]
    rw [hsh]
    unfold parse_lines
    rw [splitNl_append _ _ (printJson_no_nl v), List.filter_cons,
      trimChars_printed v]
    have hne : (!(printJson v).isEmpty) = true := by
      simp [List.isEmpty_iff, printJson_ne_nil v]
    rw [if_pos hne, List.filterMap_cons, trimChars_printed v,
      parseJson_print v (h v (by simp))]
    have := ih fun w hw => h w (List.mem_cons_of_mem _ hw)
    unfold parse_lines at this
    rw [this]

/-- Concatenation of the NDJSON encodings of a list of frames. -/
def encodeAll (vs : List Json) : String :=
  vs.foldr (fun v acc => to_ndjson v ++ acc) ""

theorem encodeAll_data (vs : List Json) :
    (encodeAll vs).data = vs.flatMap fun v => printJson v ++ ['\n'] := by
  induction vs with
  | nil => rfl
  | cons v vs ih =>
    show (to_ndjson v ++ encodeAll vs).data = _
    rw [String.data_append, ih]
    rfl

/-- Whitespace erasure, used to state "equal up to whitespace". -/
def stripWs (s : String) : String :=
  String.mk (s.data.filter fun c => !isTrimWs c)

/-- The NDJSON line refuting the second half of claim C6: the single line
`"A"` (a valid NDJSON encoding of the string "A"). -/
def claim6_input : String :=
  String.mk ['"', '\\', 'u', '0', '0', '4', '1', '"', '\n']

/-- Concrete refutation of claim C6 as stated: `claim6_input` is valid NDJSON
(it decodes to the one-element list `["A"]`), but re-encoding the decoded
values yields `"A"` plus newline, which differs from the input even after
erasing all whitespace — decoding normalizes escape sequences, so `decode`
then `encode` does not reproduce every valid NDJSON string modulo
whitespace. -/
theorem claim6_counterexample :
    parse_ndjson claim6_input = [Json.str "A"] ∧
    encodeAll (parse_ndjson claim6_input) ≠ claim6_input ∧
    stripWs (encodeAll (parse_ndjson claim6_input)) ≠ stripWs claim6_input := by
  refine ⟨by decide, by decide, by decide⟩

/-- Claim C6 amended: for every well-formed JSON value `v` (no duplicate
object keys — exactly the values a `serde_json::Value` can hold),
`parse_ndjson (to_ndjson v) = [v]`; and concatenated canonical encodings
round-trip exactly: for every list of well-formed values,
`parse_ndjson (encodeAll vs) = vs`, so re-encoding the decoded values
reproduces the encoded string verbatim. For arbitrary valid NDJSON input the
re-encoding only reproduces the decoded values, not the original bytes
(claim6_counterexample). -/
theorem claim6_theorem :
    (∀ v : Json, Json.wf v = true → parse_ndjson (to_ndjson v) = [v]) ∧
    (∀ vs : List Json, (∀ v ∈ vs, Json.wf v = true) →
      parse_ndjson (encodeAll vs) = vs ∧
      encodeAll (parse_ndjson (encodeAll vs)) = encodeAll vs) := by
  have hall : ∀ vs : List Json, (∀ v ∈ vs, Json.wf v = true) →
      parse_ndjson (encodeAll vs) = vs := by
    intro vs h
    show parse_lines (encodeAll vs).data = vs
    rw [encodeAll_data]
    exact parse_lines_encodeAll vs h
  refine ⟨?_, fun vs h => ⟨hall vs h, by rw [hall vs h]⟩⟩
  intro v hv
  have h1 := hall [v] (by simpa using hv)
  have h2 : encodeAll [v] = to_ndjson v := by
    show to_ndjson v ++ "" = to_ndjson v
    simp
  rw [h2] at h1
  exact h1

/-- Witness instantiating `claim6_theorem` on a nested concrete value and a
concrete two-frame stream. -/
theorem claim6_witness :
    Json.wf (Json.obj [("a", Json.num (-3)), ("b", Json.arr [Json.null])]) = true ∧
    parse_ndjson (to_ndjson (Json.obj [("a", Json.num (-3)), ("b", Json.arr [Json.null])])) =
      [Json.obj [("a", Json.num (-3)), ("b", Json.arr [Json.null])]] ∧
    parse_ndjson (encodeAll [Json.bool true, Json.str "x y"]) =
      [Json.bool true, Json.str "x y"] := by
  refine ⟨by decide, ?_, ?_⟩
  · exact claim6_theorem.1 _ (by decide)
  · exact (claim6_theorem.2 [Json.bool true, Json.str "x y"] (by decide)).1

end Ws
